import Mathlib

/-!
Verification of the Search-Engine repository (index_constructor.py, basic_query.py)
against its natural-language specification.

Shallow embedding conventions:
* Python floats are modelled as exact rationals `ℚ`; `math.log` and `math.sqrt` are
  abstracted as parameter functions `ln sqrtF : ℚ → ℚ` (the theorems hold for every
  such function, and witnesses instantiate them with computable functions that agree
  with the real logarithm on the values the statement needs, e.g. `ln 1 = 0`).
* The MongoDB collection `inverted_index` is the list of its term rows in natural
  (insertion) order; `find_one` returns the first row whose `lemma` field matches.
* Python dicts (including `defaultdict`) are association lists in key-insertion
  order, which is exactly CPython's dict iteration order.
* The external collaborators fixed by the spec (HTML parser, `nltk.word_tokenize`,
  the Snowball stemmer, the stop-word file) are abstracted at their interface:
  a parsed tag is its name plus the token list `word_tokenize(re.sub('[^a-zA-Z0-9]',' ', tag.text))`,
  and `stem`, `sw` (stop words) are parameters.
* Python exceptions are modelled with `Except PyError`; an uncaught exception is the
  corresponding `Except.error`.
-/

/-- Exception kinds that the modelled code can raise. -/
inductive PyError
  | typeError
  | keyError
  | attributeError
  | zeroDivisionError
deriving DecidableEq

deriving instance DecidableEq for Except

/-- Python's `str.lower()` (per-character lowercasing). Implemented via `toList`
so that the kernel can evaluate it on literals. -/
def pyLower (s : String) : String := List.asString (s.toList.map Char.toLower)

/-- Python's `str.isnumeric()`: non-empty and all characters numeric. The tokens it
is applied to here come from text where every non-alphanumeric character was
replaced by a space, so numeric characters are exactly the ASCII digits. -/
def pyIsNumeric (s : String) : Bool := !s.toList.isEmpty && s.toList.all Char.isDigit

/-- Generic association-list lookup (first binding wins), modelling Python dict
access and MongoDB `find_one`-style matching on a unique key. -/
def lookupA {α : Type} : List (String × α) → String → Option α
  | [], _ => none
  | e :: rest, k => if e.1 = k then some e.2 else lookupA rest k

/-- One posting: an entry of a term row's `docs` array,
`⟨location, tf, html_weight, tf_idf⟩`; `tf_idf` is absent until phase 2 writes it. -/
structure Posting where
  location : String
  tf : ℚ
  html_weight : ℚ
  tf_idf : Option ℚ
deriving DecidableEq

/-- One document of the `inverted_index` collection: a term row
`(lemma, docs)`; `lem` is the `lemma` field (that word is reserved in Lean). -/
structure TermRow where
  lem : String
  docs : List Posting
deriving DecidableEq

/-- A parsed HTML tag as delivered by the parser/tokenizer collaborators:
its tag name and the token list of its text content. -/
structure HtmlTag where
  name : String
  tokens : List String
deriving DecidableEq

/-- A corpus document as drawn from the bookkeeping manifest: its folder, file
name and parsed tag sequence (`soup.find_all(True)`). -/
structure WebDoc where
  folder : String
  file : String
  tags : List HtmlTag
deriving DecidableEq

/-- `self.collection.find_one(\x7b'lemma': lemma\x7d)`: first row whose `lemma` matches. -/
def find_one : List TermRow → String → Option TermRow
  | [], _ => none
  | r :: rest, l => if r.lem = l then some r else find_one rest l

/-- Number of distinct elements of a list (the length of
`List.dedup`, proved below); models the length of a MongoDB `distinct` result. -/
def distinctCount : List String → ℕ
  | [] => 0
  | x :: xs => if x ∈ xs then distinctCount xs else distinctCount xs + 1

/-- All posting locations across the store, with multiplicity. -/
def allLocations (store : List TermRow) : List String :=
  (store.map (fun r => r.docs.map (fun p => p.location))).flatten

/-- `len(self.collection.distinct("docs.location"))`: the number of distinct
document locations appearing anywhere in the store. -/
def total_docs (store : List TermRow) : ℕ := distinctCount (allLocations store)

/-- `self.htmlWeights` from `InvertedIndex.__init__` (line 37). -/
def htmlWeights : List (String × ℚ) :=
  [("title", 6/10), ("h1", 5/10), ("h2", 4/10), ("h3", 3/10), ("h4", 2/10)]

/-- `self.htmlWeights.get(tag_name, 0.1)` (line 69). -/
def htmlWeight_of (tag_name : String) : ℚ := (lookupA htmlWeights tag_name).getD (1/10)

/-- Update of the per-document `lemmas` defaultdict (lines 74-76): first touch
inserts `(freq 1, html_weight w)` at the end, a repeat bumps in place. -/
def bump : List (String × ℚ × ℚ) → String → ℚ → List (String × ℚ × ℚ)
  | [], k, w => [(k, 1, w)]
  | e :: rest, k, w =>
    if e.1 = k then (e.1, e.2.1 + 1, e.2.2 + w) :: rest else e :: bump rest k w

/-- The token loop of `process_document` (lines 71-76) for one tag with weight `w`:
keep a token iff its lowercase form is not a stop word, its length exceeds 2 and it
is not purely numeric; then stem it and bump its frequency and html weight. -/
def tagTokensLoop (sw : List String) (stem : String → String) (w : ℚ) :
    List String → List (String × ℚ × ℚ) → List (String × ℚ × ℚ)
  | [], m => m
  | tok :: rest, m =>
    let ll := pyLower tok
    if ll ∉ sw ∧ tok.length > 2 then
      if pyIsNumeric ll then tagTokensLoop sw stem w rest m
      else tagTokensLoop sw stem w rest (bump m (stem ll) w)
    else tagTokensLoop sw stem w rest m

/-- The tag loop of `process_document` (lines 66-76). -/
def tagsLoop (sw : List String) (stem : String → String) :
    List HtmlTag → List (String × ℚ × ℚ) → List (String × ℚ × ℚ)
  | [], m => m
  | t :: rest, m => tagsLoop sw stem rest (tagTokensLoop sw stem (htmlWeight_of t.name) t.tokens m)

/-- `InvertedIndex.process_document` (lines 64-78): the per-document dict
`lemma ↦ (freq, html_weight)` in first-touch order. -/
def process_document (sw : List String) (stem : String → String) (tags : List HtmlTag) :
    List (String × ℚ × ℚ) :=
  tagsLoop sw stem tags []

/-- `InvertedIndex.add_to_index` (lines 82-93), up to the bulk write: the list of
`UpdateOne(\x7b'lemma': lemma\x7d, \x7b'$push': \x7b'docs': doc_entry\x7d\x7d, upsert=True)` operations,
one per lemma, with `tf = freq / total_words` where `total_words = len(lemmas)`. -/
def add_to_index (lemmas : List (String × ℚ × ℚ)) (folder file : String) :
    List (String × Posting) :=
  lemmas.map (fun e =>
    (e.1, Posting.mk (folder ++ "/" ++ file) (e.2.1 / (lemmas.length : ℚ)) e.2.2 none))

/-- Effect of one `$push`-upsert on the store: append the posting to the matching
row's `docs`, or append a fresh row if the lemma has no row yet. -/
def pushPosting : List TermRow → String → Posting → List TermRow
  | [], l, p => [TermRow.mk l [p]]
  | r :: rest, l, p =>
    if r.lem = l then TermRow.mk r.lem (r.docs ++ [p]) :: rest else r :: pushPosting rest l p

/-- Effect of one document's bulk write (the successful path; on timeout or write
error the code drops the document's contribution, which corresponds to not calling
this at all). -/
def applyUpdates : List TermRow → List (String × Posting) → List TermRow
  | s, [] => s
  | s, u :: rest => applyUpdates (pushPosting s u.1 u.2) rest

/-- Phase 1 of the build (lines 47-59): process every manifest document and write
its postings. The semaphore only bounds in-flight concurrency; the per-document
batches are independent single writes, so the store after `asyncio.gather` is the
one obtained by applying every successful document batch; we fix manifest order. -/
def phase1 (sw : List String) (stem : String → String) :
    List WebDoc → List TermRow → List TermRow
  | [], s => s
  | d :: rest, s =>
    phase1 sw stem rest
      (applyUpdates s (add_to_index (process_document sw stem d.tags) d.folder d.file))

/-- The `UpdateOne` operations one term row's cursor iteration (lines 115-131)
would build: `df = len(entry['docs'])`, `idf = log(total_docs/df) if df > 0 else 0`,
and one `(lemma, location, tf * idf)` update per posting. Under the un-awaited
`len()` on line 112 that loop is unreachable (see `calculate_tf_idf` below), so
this is the spec-side model of what phase 2 is written to compute. -/
def rowUpdates (ln : ℚ → ℚ) (total : ℕ) (r : TermRow) : List (String × String × ℚ) :=
  r.docs.map (fun p =>
    (r.lem, p.location,
      p.tf * (if 0 < r.docs.length then ln ((total : ℚ) / (r.docs.length : ℚ)) else 0)))

/-- All `$set \x7b'docs.$.tf_idf'\x7d` updates the cursor loop of `calculate_tf_idf`
would build over the whole store (spec-side model of the intended phase-2
batch; the loop building it is unreachable in the code, see below). -/
def calculate_tf_idf_updates (ln : ℚ → ℚ) (store : List TermRow) : List (String × String × ℚ) :=
  (store.map (rowUpdates ln (total_docs store))).flatten

/-- A Python runtime value as far as the missing-await call sites need: an int,
or a pending Future/coroutine object (the value of an un-awaited Motor method
call). -/
inductive PyVal
  | int (n : ℤ)
  | coroutine
deriving DecidableEq

/-- The value of `self.collection.distinct("docs.location")` as written on
line 112: on a Motor `AsyncIOMotorCollection`, `distinct` must be awaited; the
un-awaited call's value is the pending Future/coroutine object itself, whatever
the store contains. -/
def distinct_unawaited (_store : List TermRow) : PyVal := PyVal.coroutine

/-- Python's `len()` applied to such a runtime value: neither an int nor a
pending Future/coroutine object defines `__len__`, so `len()` raises
`TypeError`. -/
def pyLen : PyVal → Except PyError ℕ
  | PyVal.int _ => Except.error PyError.typeError
  | PyVal.coroutine => Except.error PyError.typeError

/-- Set `tf_idf` on the first posting of the list whose `location` matches
(MongoDB positional `$` operator). -/
def setTfIdfFirst : List Posting → String → ℚ → List Posting
  | [], _, _ => []
  | p :: ps, loc, v =>
    if p.location = loc then Posting.mk p.location p.tf p.html_weight (some v) :: ps
    else p :: setTfIdfFirst ps loc v

/-- Apply one `(lemma, location, tf_idf)` targeted update to the store. A filter
that matches no row is a no-op here; the updates generated by the backfill always
target an existing `(lemma, location)` pair. -/
def applyTfIdfUpdate : List TermRow → String × String × ℚ → List TermRow
  | [], _ => []
  | r :: rest, u =>
    if r.lem = u.1 then TermRow.mk r.lem (setTfIdfFirst r.docs u.2.1 u.2.2) :: rest
    else r :: applyTfIdfUpdate rest u

/-- Apply a batch of `tf_idf` updates in order. -/
def apply_tf_idf_updates : List TermRow → List (String × String × ℚ) → List TermRow
  | s, [] => s
  | s, u :: rest => apply_tf_idf_updates (applyTfIdfUpdate s u) rest

/-- `InvertedIndex.calculate_tf_idf` (lines 111-136), store effect. Its first
statement, line 112, is `total_docs = len(self.collection.distinct("docs.location"))`
with the Motor `distinct` call not awaited, so `len()` is applied to the pending
Future/coroutine object and raises `TypeError` before the cursor loop runs: no
update is computed, nothing is written (line 132's `bulk_write` is never
reached), every `tf_idf` field stays absent, and the exception propagates to
the caller. -/
def calculate_tf_idf (ln : ℚ → ℚ) (store : List TermRow) : Except PyError (List TermRow) :=
  match pyLen (distinct_unawaited store) with
  | Except.error e => Except.error e
  | Except.ok total =>
      Except.ok (apply_tf_idf_updates store ((store.map (rowUpdates ln total)).flatten))

/-- Modelled from the spec: the phase-2 backfill as §4.1 describes it — the
updates of `calculate_tf_idf_updates` applied to the store (i.e. the behaviour
the method is written to have, with line 112 awaited so that the cursor loop
runs and the bulk write lands). -/
def calculate_tf_idf_spec (ln : ℚ → ℚ) (store : List TermRow) : List TermRow :=
  apply_tf_idf_updates store (calculate_tf_idf_updates ln store)

/-- Python `==` between such a value and an int literal: `int.__eq__` compares
numerically; a coroutine object has no numeric equality and compares unequal. -/
def pyIntEq : PyVal → ℤ → Bool
  | PyVal.int n, m => n == m
  | PyVal.coroutine, _ => false

/-- The value of `self.collection.count_documents(\x7b\x7d)` as written on line 42:
on a Motor `AsyncIOMotorCollection` the method is a coroutine function and the
call is not awaited, so the expression's value is the coroutine object itself,
whatever the store contains. -/
def count_documents_unawaited (_store : List TermRow) : PyVal := PyVal.coroutine

/-- `InvertedIndex.build_index` (lines 41-60): guard, phase-1 ingestion, phase-2
backfill (`generate_analytics` only reports and is omitted). The guard tests
`self.collection.count_documents(\x7b\x7d) == 0`, i.e. pending-Future-object `== 0`,
which is false for every store; in the (unreachable) build branch the awaited
`calculate_tf_idf` call would re-raise that method's exception. -/
def build_index (ln : ℚ → ℚ) (sw : List String) (stem : String → String)
    (corpus : List WebDoc) (store : List TermRow) : Except PyError (List TermRow) :=
  if pyIntEq (count_documents_unawaited store) 0 then
    calculate_tf_idf ln (phase1 sw stem corpus store)
  else Except.ok store

/-- Modelled from the spec (§4.1 build-guard state machine): the builder queries
the store's total entry count; if non-zero it performs no work, if zero it runs
the per-document processing and then the applied phase-2 backfill. -/
def build_index_spec (ln : ℚ → ℚ) (sw : List String) (stem : String → String)
    (corpus : List WebDoc) (store : List TermRow) : List TermRow :=
  if store.length = 0 then calculate_tf_idf_spec ln (phase1 sw stem corpus store)
  else store

/-- Update of the `lemmas` defaultdict(int) in `tokenize_query` (line 64). -/
def bumpCount : List (String × ℕ) → String → List (String × ℕ)
  | [], k => [(k, 1)]
  | e :: rest, k => if e.1 = k then (e.1, e.2 + 1) :: rest else e :: bumpCount rest k

/-- The token loop of `BasicQuery.tokenize_query` (lines 61-64): lowercase, drop
purely numeric tokens, stem, count. No stop-word and no minimum-length filter. -/
def queryTokensLoop (stem : String → String) :
    List String → List (String × ℕ) → List (String × ℕ)
  | [], m => m
  | tok :: rest, m =>
    let ll := pyLower tok
    if pyIsNumeric ll then queryTokensLoop stem rest m
    else queryTokensLoop stem rest (bumpCount m (stem ll))

/-- `BasicQuery.tokenize_query` (lines 55-65): dict `lemma ↦ count`. -/
def tokenize_query (stem : String → String) (toks : List String) : List (String × ℕ) :=
  queryTokensLoop stem toks []

/-- The first loop of `process_query` (lines 71-72): query term frequency
`tf / len(lemmas)`, where `len(lemmas)` is the number of distinct query lemmas. -/
def query_tf (stem : String → String) (toks : List String) : List (String × ℚ) :=
  (tokenize_query stem toks).map
    (fun e => (e.1, (e.2 : ℚ) / ((tokenize_query stem toks).length : ℚ)))

/-- The second loop of `process_query` (lines 74-76):
`postings_list = self.collection.find_one(\x7b'lemma': lemma\x7d)['docs']` — when
`find_one` returns `None` the `['docs']` subscript raises `TypeError`; otherwise
multiply by `log(total_docs/len(postings_list)) if postings_list else 0`. -/
def queryIdfLoop (ln : ℚ → ℚ) (store : List TermRow) :
    List (String × ℚ) → Except PyError (List (String × ℚ))
  | [] => Except.ok []
  | e :: rest =>
    match find_one store e.1 with
    | none => Except.error PyError.typeError
    | some row =>
      let doc_freq :=
        if row.docs.isEmpty then 0 else ln ((total_docs store : ℚ) / (row.docs.length : ℚ))
      match queryIdfLoop ln store rest with
      | Except.error er => Except.error er
      | Except.ok out => Except.ok ((e.1, e.2 * doc_freq) :: out)

/-- Sum of squared values of a rational-valued dict. -/
def sum_sq (l : List (String × ℚ)) : ℚ := (l.map (fun e => e.2 ^ 2)).sum

/-- `BasicQuery.process_query` (lines 68-82): the query tf-idf dict and the
(unused downstream) Euclidean vector length `sqrt(sum(v**2))`. -/
def process_query (ln sqrtF : ℚ → ℚ) (stem : String → String) (store : List TermRow)
    (toks : List String) : Except PyError (List (String × ℚ) × ℚ) :=
  match queryIdfLoop ln store (query_tf stem toks) with
  | Except.error e => Except.error e
  | Except.ok query_tfidf => Except.ok (query_tfidf, sqrtF (sum_sq query_tfidf))

/-- `BasicQuery.normalize_doc_tfidf` (lines 85-93): per-document Euclidean vector
lengths. Its return value is discarded by the caller. -/
def normalize_doc_tfidf (sqrtF : ℚ → ℚ)
    (doc_vectors : List (String × List (String × ℚ))) : List (String × ℚ) :=
  doc_vectors.map (fun dv => (dv.1, sqrtF (sum_sq dv.2)))

/-- `scores[doc_id] += v` on a `defaultdict(float)`: bump in place, first touch
appends with initial value `0 + v`. -/
def addTo : List (String × ℚ) → String → ℚ → List (String × ℚ)
  | [], k, v => [(k, v)]
  | e :: rest, k, v => if e.1 = k then (e.1, e.2 + v) :: rest else e :: addTo rest k v

/-- Dict assignment `m[k] = v`: overwrite in place or append. -/
def setAt : List (String × ℚ) → String → ℚ → List (String × ℚ)
  | [], k, v => [(k, v)]
  | e :: rest, k, v => if e.1 = k then (e.1, v) :: rest else e :: setAt rest k v

/-- `doc_vectors[doc_id][lemma] = tf_idf` on a nested defaultdict. -/
def setIn : List (String × List (String × ℚ)) → String → String → ℚ →
    List (String × List (String × ℚ))
  | [], k, kk, v => [(k, [(kk, v)])]
  | e :: rest, k, kk, v =>
    if e.1 = k then (e.1, setAt e.2 kk v) :: rest else e :: setIn rest k kk v

/-- The running state of the first loop of `calculate_cosine_similarity`:
the `scores` dict and the nested `doc_vectors` dict. -/
abbrev QState := List (String × ℚ) × List (String × List (String × ℚ))

/-- The posting loop of `calculate_cosine_similarity` (lines 105-110) for one
query lemma `l` whose postings list has length `n`. The expression
`doc.get('tf_idf', doc['tf'] / log(self.total_docs / len(postings_list)))`
evaluates its default argument eagerly, so the division is executed for every
posting even when `tf_idf` is present, and Python raises `ZeroDivisionError`
whenever `log(total_docs/n) == 0`. -/
def postingsLoop (ln : ℚ → ℚ) (total : ℕ) (n : ℕ) (l : String) :
    List Posting → QState → Except PyError QState
  | [], acc => Except.ok acc
  | p :: rest, acc =>
    let d := ln ((total : ℚ) / (n : ℚ))
    if d = 0 then Except.error PyError.zeroDivisionError
    else
      postingsLoop ln total n l rest
        (addTo acc.1 p.location (p.html_weight / 10000),
         setIn acc.2 p.location l (p.tf_idf.getD (p.tf / d)))

/-- The query-lemma loop of `calculate_cosine_similarity` (lines 102-110):
`find_one(...)['docs']` raises `TypeError` when the lemma has no row. -/
def lemmasLoop (ln : ℚ → ℚ) (store : List TermRow) (total : ℕ) :
    List String → QState → Except PyError QState
  | [], acc => Except.ok acc
  | l :: rest, acc =>
    match find_one store l with
    | none => Except.error PyError.typeError
    | some row =>
      match postingsLoop ln total row.docs.length l row.docs acc with
      | Except.error e => Except.error e
      | Except.ok acc2 => lemmasLoop ln store total rest acc2

/-- The inner accumulation of the second loop (lines 114-118):
`cosine_similarity += query_tfidf[lemma] * tf_idf`; reading the
`defaultdict(float)` at a missing key yields 0. -/
def dotLoop (qw : List (String × ℚ)) : List (String × ℚ) → ℚ → ℚ
  | [], c => c
  | e :: rest, c => dotLoop qw rest (c + (lookupA qw e.1).getD 0 * e.2)

/-- The second loop of `calculate_cosine_similarity` (lines 114-120):
`scores[doc_id] += cosine_similarity` for each document vector. -/
def docVectorsLoop (qw : List (String × ℚ)) :
    List (String × List (String × ℚ)) → List (String × ℚ) → List (String × ℚ)
  | [], sc => sc
  | dv :: rest, sc => docVectorsLoop qw rest (addTo sc dv.1 (dotLoop qw dv.2 0))

/-- `sorted(scores.items(), key=lambda x: x[1], reverse=True)`: CPython's sort is
stable, so this is the stable descending sort by score, which is exactly
insertion sort with the relation "left score not below right score". -/
def sortDesc (l : List (String × ℚ)) : List (String × ℚ) :=
  l.insertionSort (fun a b => b.2 ≤ a.2)

/-- `BasicQuery.calculate_cosine_similarity` (lines 96-124): query weights, the
two accumulation loops (the `normalize_doc_tfidf` result is computed and
discarded, line 112 — no score is divided by a vector norm), stable descending
sort, first 20 document identifiers. -/
def calculate_cosine_similarity (ln sqrtF : ℚ → ℚ) (stem : String → String)
    (store : List TermRow) (toks : List String) : Except PyError (List String) :=
  match process_query ln sqrtF stem store toks with
  | Except.error e => Except.error e
  | Except.ok q =>
    match lemmasLoop ln store (total_docs store) (q.1.map Prod.fst) ([], []) with
    | Except.error e => Except.error e
    | Except.ok st =>
      let _doc_vector_lengths := normalize_doc_tfidf sqrtF st.2
      Except.ok (((sortDesc (docVectorsLoop q.1 st.2 st.1)).take 20).map Prod.fst)

/-- State of the bookkeeping.json file for `get_url`. -/
inductive FileState
  | missing
  | corrupt
  | ok (data : List (String × String))
deriving DecidableEq

/-- `BasicQuery.get_url` (lines 40-51): `FileNotFoundError` and
`json.JSONDecodeError` are caught and turn into `None`; `data[doc_id]` on a key
that is absent raises `KeyError`, which no handler catches. -/
def get_url (fs : FileState) (doc_id : String) : Except PyError (Option String) :=
  match fs with
  | FileState.missing => Except.ok none
  | FileState.corrupt => Except.ok none
  | FileState.ok data =>
    match lookupA data doc_id with
    | some url => Except.ok (some url)
    | none => Except.error PyError.keyError

/-- The list comprehension `[self.get_url(doc_id) for doc_id in results]`. -/
def getUrlsLoop (fs : FileState) : List String → Except PyError (List (Option String))
  | [] => Except.ok []
  | d :: rest =>
    match get_url fs d with
    | Except.error e => Except.error e
    | Except.ok u =>
      match getUrlsLoop fs rest with
      | Except.error e => Except.error e
      | Except.ok us => Except.ok (u :: us)

/-- `BasicQuery.format_urls` (lines 22-29): `url.startswith(...)` on a `None`
entry raises `AttributeError`; otherwise the default protocol is prepended when
no protocol is present. -/
def format_urls : List (Option String) → Except PyError (List String)
  | [] => Except.ok []
  | none :: _ => Except.error PyError.attributeError
  | some url :: rest =>
    match format_urls rest with
    | Except.error e => Except.error e
    | Except.ok out =>
      Except.ok ((if url.startsWith "http://" || url.startsWith "https://" then url
                  else "http://" ++ url) :: out)

/-- `BasicQuery.query_index` (lines 32-36). -/
def query_index (ln sqrtF : ℚ → ℚ) (stem : String → String) (store : List TermRow)
    (fs : FileState) (toks : List String) : Except PyError (List String) :=
  match calculate_cosine_similarity ln sqrtF stem store toks with
  | Except.error e => Except.error e
  | Except.ok results =>
    match (if results.isEmpty then Except.ok [] else getUrlsLoop fs results) with
    | Except.error e => Except.error e
    | Except.ok urls => format_urls urls

/-! Specification-side definitions, written from the claims' wording, to be
compared with the embedded code. -/

/-- The postings list of a lemma: the matching row's `docs`, empty when the
lemma has no row. -/
def postingsOf (store : List TermRow) (l : String) : List Posting :=
  ((find_one store l).map (fun r => r.docs)).getD []

/-- The resolved tf-idf of a posting as §4.2 step 3 words it: the stored
`tf_idf` when present, else the recomputation `tf / ln(total/n)`. -/
def resolveVal (ln : ℚ → ℚ) (total n : ℕ) (p : Posting) : ℚ :=
  p.tf_idf.getD (p.tf / ln ((total : ℚ) / (n : ℚ)))

/-- Claim-side score of a candidate document `d` (claim C4): the sum over query
lemmas sharing `d` of `query_lemma_weight * document_lemma_tf_idf`, plus
`html_weight / 10000` once per (document, query-lemma) pair, with no norm. -/
def claimedScore (ln : ℚ → ℚ) (store : List TermRow) (qw : List (String × ℚ))
    (d : String) : ℚ :=
  (qw.map (fun lw =>
    match (postingsOf store lw.1).find? (fun p => p.location == d) with
    | some p =>
        lw.2 * resolveVal ln (total_docs store) (postingsOf store lw.1).length p
          + p.html_weight / 10000
    | none => 0)).sum

/-- Append the members of the second list that are not yet present (first
occurrence kept, order preserved). -/
def extendKeys : List String → List String → List String
  | ks, [] => ks
  | ks, d :: ds => extendKeys (if d ∈ ks then ks else ks ++ [d]) ds

/-- Candidate accumulation over the query lemmas. -/
def candAux (store : List TermRow) : List String → List String → List String
  | ks, [] => ks
  | ks, l :: ls =>
    candAux store (extendKeys ks ((postingsOf store l).map (fun p => p.location))) ls

/-- The candidate documents of a query: every document appearing in the postings
list of some query lemma, in first-appearance order. -/
def candidates (store : List TermRow) (ls : List String) : List String :=
  candAux store [] ls

/-- Claim-side result of the scoring (claim C4): the first 20 document
identifiers of the candidates sorted by claimed score, descending. -/
def claimedRanking (ln : ℚ → ℚ) (store : List TermRow) (qw : List (String × ℚ)) :
    List String :=
  ((sortDesc ((candidates store (qw.map Prod.fst)).map
      (fun d => (d, claimedScore ln store qw d)))).take 20).map Prod.fst

/-- The filtered, stemmed (lemma, tag-weight) stream of one tag, claim-side. -/
def tagStream (sw : List String) (stem : String → String) (t : HtmlTag) :
    List (String × ℚ) :=
  t.tokens.filterMap (fun tok =>
    let ll := pyLower tok
    if ll ∉ sw ∧ tok.length > 2 ∧ pyIsNumeric ll = false then
      some (stem ll, htmlWeight_of t.name)
    else none)

/-- The whole document's retained (lemma, tag-weight) occurrence stream. -/
def docStream (sw : List String) (stem : String → String) (tags : List HtmlTag) :
    List (String × ℚ) :=
  (tags.map (tagStream sw stem)).flatten

/-- The retained lemma occurrences of a document, in order. -/
def docLemmas (sw : List String) (stem : String → String) (tags : List HtmlTag) :
    List String :=
  (docStream sw stem tags).map Prod.fst

/-- The stemmed query lemma occurrences (only the numeric filter applies). -/
def queryStream (stem : String → String) (toks : List String) : List String :=
  toks.filterMap (fun tok =>
    if pyIsNumeric (pyLower tok) then none else some (stem (pyLower tok)))

/-- Does a tag's retained token stream contain the lemma? (claim C8 wording:
"tag whose text contains the lemma"). -/
def tagContains (sw : List String) (stem : String → String) (t : HtmlTag)
    (l : String) : Bool :=
  (tagStream sw stem t).any (fun e => e.1 == l)

/-- Claim-side html weight (claim C8): the sum over the tags containing the
lemma of the per-tag weight, each containing tag counted once. -/
def claimedHtmlWeight (sw : List String) (stem : String → String)
    (tags : List HtmlTag) (l : String) : ℚ :=
  (tags.map (fun t => if tagContains sw stem t l then htmlWeight_of t.name else 0)).sum

/-! Pure replay of the scoring loops, used to state and prove their
characterisation (they agree with the monadic loops whenever no exception is
raised). -/

/-- Exception-free replay of `postingsLoop`. -/
def postingsFold (ln : ℚ → ℚ) (total n : ℕ) (l : String) :
    List Posting → QState → QState
  | [], acc => acc
  | p :: rest, acc =>
    postingsFold ln total n l rest
      (addTo acc.1 p.location (p.html_weight / 10000),
       setIn acc.2 p.location l (resolveVal ln total n p))

/-- Exception-free replay of `lemmasLoop`. -/
def lemmasFold (ln : ℚ → ℚ) (store : List TermRow) (total : ℕ) :
    List String → QState → QState
  | [], acc => acc
  | l :: rest, acc =>
    lemmasFold ln store total rest
      (postingsFold ln total (postingsOf store l).length l (postingsOf store l) acc)

/-! Concrete instances used by witnesses and counterexamples. -/

/-- A computable stand-in for `math.log` agreeing with it on the points the
statements use: `ln0 1 = 0` (exactly as for floats) and `ln0 x ≠ 0` for the
other ratios occurring in the examples. -/
def ln0 : ℚ → ℚ := fun q => q - 1

/-- A computable stand-in for `math.sqrt`; its value is never inspected. -/
def sqrt0 : ℚ → ℚ := fun q => q

/-- A trivial stemmer (the Snowball stemmer is an external collaborator). -/
def stem0 : String → String := fun s => s

/-- An empty stop-word list. -/
def sw0 : List String := []

/-- A two-row, three-document store with backfilled `tf_idf` values. -/
def store0 : List TermRow :=
  [TermRow.mk "fox" [Posting.mk "0/1" (1/2) (3/5) (some 2), Posting.mk "0/2" (1/3) (1/10) (some 1)],
   TermRow.mk "dog" [Posting.mk "0/2" (1/4) (1/10) (some 3), Posting.mk "0/3" (1/5) (1/10) (some 1)]]

/-- A single-row, single-document store (every term's df equals total_docs). -/
def store1 : List TermRow :=
  [TermRow.mk "uniq" [Posting.mk "0/9" (1/2) (1/10) (some 5)]]

/-- A store for the backfill divergence: two lemmas, two documents, no tf_idf. -/
def store5 : List TermRow :=
  [TermRow.mk "fox" [Posting.mk "0/1" (1/2) (3/5) none],
   TermRow.mk "dog" [Posting.mk "0/2" (1/3) (1/10) none]]

/-- A one-document corpus containing one retained lemma. -/
def corpus0 : List WebDoc := [WebDoc.mk "0" "1" [HtmlTag.mk "title" ["foxx"]]]

/-- A bookkeeping mapping that contains none of the store's documents. -/
def fsMismatch : FileState := FileState.ok [("9/9", "www.example.com/x")]

/-- A bookkeeping mapping resolving the documents of `store0`. -/
def fs0 : FileState :=
  FileState.ok [("0/1", "www.a.com/1"), ("0/2", "www.a.com/2"), ("0/3", "www.a.com/3")]

/-! Helper definitions for the characterisation proofs. -/

/-- Replay of the per-document dict updates over a flattened (lemma, weight)
occurrence stream. -/
def streamFold : List (String × ℚ) → List (String × ℚ × ℚ) → List (String × ℚ × ℚ)
  | [], m => m
  | e :: rest, m => streamFold rest (bump m e.1 e.2)

/-- Replay of the query-count dict updates over a lemma occurrence stream. -/
def countFold : List String → List (String × ℕ) → List (String × ℕ)
  | [], m => m
  | k :: rest, m => countFold rest (bumpCount m k)

/-- Sum of the weights of the occurrences of lemma `l` in a stream. -/
def wsum (l : String) (s : List (String × ℚ)) : ℚ :=
  ((s.filter (fun e => e.1 == l)).map Prod.snd).sum

/-- The html-weight contribution a postings list makes to document `d`:
`html_weight / 10000` summed over the postings located at `d`. -/
def htmlOf (pl : List Posting) (d : String) : ℚ :=
  ((pl.filter (fun p => p.location == d)).map (fun p => p.html_weight / 10000)).sum

/-- Html-weight contributions to `d` over a list of query lemmas. -/
def htmlSum (store : List TermRow) (ls : List String) (d : String) : ℚ :=
  (ls.map (fun l => htmlOf (postingsOf store l) d)).sum

/-- Does lemma `l` have a posting located at `d`? -/
def hasDocB (store : List TermRow) (l d : String) : Bool :=
  (postingsOf store l).any (fun p => p.location == d)

/-- The resolved tf-idf document `d` gets from query lemma `l` (0 when `l` has
no posting at `d`). -/
def pairVal (ln : ℚ → ℚ) (store : List TermRow) (l d : String) : ℚ :=
  match (postingsOf store l).find? (fun p => p.location == d) with
  | some p => resolveVal ln (total_docs store) (postingsOf store l).length p
  | none => 0

/-- The inner dict `doc_vectors[d]` after the first scoring loop: one entry per
query lemma having a posting at `d`, in lemma order. -/
def pairsList (ln : ℚ → ℚ) (store : List TermRow) (ls : List String) (d : String) :
    List (String × ℚ) :=
  (ls.filter (fun l => hasDocB store l d)).map (fun l => (l, pairVal ln store l d))

/-! Association-list lemmas. -/

theorem lookupA_eq_none_iff {α : Type} (m : List (String × α)) (k : String) :
    lookupA m k = none ↔ k ∉ m.map Prod.fst := by
  induction m with
  | nil => simp [lookupA]
  | cons e rest ih =>
    by_cases h : e.1 = k
    · simp [lookupA, h]
    · simp only [lookupA, if_neg h, List.map_cons, List.mem_cons, ih]
      constructor
      · intro hk hor
        rcases hor with h1 | h2
        · exact h h1.symm
        · exact hk h2
      · intro hk h2
        exact hk (Or.inr h2)

theorem lookupA_isSome_iff {α : Type} (m : List (String × α)) (k : String) :
    (lookupA m k).isSome = true ↔ k ∈ m.map Prod.fst := by
  rw [← not_iff_not]
  simp only [Option.not_isSome_iff_eq_none]
  exact lookupA_eq_none_iff m k

theorem mem_of_lookupA {α : Type} {m : List (String × α)} {k : String} {v : α}
    (h : lookupA m k = some v) : (k, v) ∈ m := by
  induction m with
  | nil => cases h
  | cons e rest ih =>
    by_cases he : e.1 = k
    · rw [lookupA, if_pos he] at h
      injection h with hv
      subst hv
      subst he
      simp
    · rw [lookupA, if_neg he] at h
      exact List.mem_cons_of_mem _ (ih h)

theorem lookupA_of_mem {α : Type} {m : List (String × α)} {k : String} {v : α}
    (hn : (m.map Prod.fst).Nodup) (h : (k, v) ∈ m) : lookupA m k = some v := by
  induction m with
  | nil => cases h
  | cons e rest ih =>
    rcases List.mem_cons.mp h with h1 | h1
    · cases h1
      simp [lookupA]
    · have hne : e.1 ≠ k := by
        intro he
        have hm : k ∈ rest.map Prod.fst := List.mem_map_of_mem Prod.fst h1
        rw [List.map_cons, List.nodup_cons] at hn
        exact hn.1 (he ▸ hm)
      rw [lookupA, if_neg hne]
      rw [List.map_cons, List.nodup_cons] at hn
      exact ih hn.2 h1

theorem lookupA_addTo_self (m : List (String × ℚ)) (k : String) (v : ℚ) :
    lookupA (addTo m k v) k = some ((lookupA m k).getD 0 + v) := by
  induction m with
  | nil => simp [addTo, lookupA]
  | cons e rest ih =>
    by_cases h : e.1 = k
    · simp [addTo, lookupA, h]
    · simp [addTo, lookupA, h, ih]

theorem lookupA_addTo_ne (m : List (String × ℚ)) {k k' : String} (v : ℚ)
    (h : k' ≠ k) : lookupA (addTo m k v) k' = lookupA m k' := by
  induction m with
  | nil =>
    simp only [addTo, lookupA]
    rw [if_neg (fun he => h he.symm)]
  | cons e rest ih =>
    simp only [addTo]
    by_cases he : e.1 = k
    · rw [if_pos he]
      simp only [lookupA]
      rcases eq_or_ne e.1 k' with h2 | h2
      · exact absurd (h2.symm.trans he) h
      · rw [if_neg h2, if_neg h2]
    · rw [if_neg he]
      simp only [lookupA]
      rcases eq_or_ne e.1 k' with h2 | h2
      · rw [if_pos h2, if_pos h2]
      · rw [if_neg h2, if_neg h2, ih]

theorem keys_addTo (m : List (String × ℚ)) (k : String) (v : ℚ) :
    (addTo m k v).map Prod.fst =
      if k ∈ m.map Prod.fst then m.map Prod.fst else m.map Prod.fst ++ [k] := by
  induction m with
  | nil => simp [addTo]
  | cons e rest ih =>
    by_cases h : e.1 = k
    · simp [addTo, h]
    · have hne : ¬ k = e.1 := fun he => h he.symm
      simp only [addTo, if_neg h, List.map_cons, List.mem_cons, hne, false_or]
      by_cases hm : k ∈ rest.map Prod.fst
      · simp [hm, ih]
      · simp [hm, ih]

theorem setAt_of_not_mem {m : List (String × ℚ)} {k : String} (v : ℚ)
    (h : k ∉ m.map Prod.fst) : setAt m k v = m ++ [(k, v)] := by
  induction m with
  | nil => simp [setAt]
  | cons e rest ih =>
    simp only [List.map_cons, List.mem_cons] at h
    push_neg at h
    rw [setAt, if_neg (fun he => h.1 he.symm), ih h.2]
    simp

theorem lookupA_setIn_self (m : List (String × List (String × ℚ))) (k kk : String) (v : ℚ) :
    lookupA (setIn m k kk v) k = some (setAt ((lookupA m k).getD []) kk v) := by
  induction m with
  | nil => simp [setIn, lookupA, setAt]
  | cons e rest ih =>
    by_cases h : e.1 = k
    · simp [setIn, lookupA, h]
    · simp [setIn, lookupA, h, ih]

theorem lookupA_setIn_ne (m : List (String × List (String × ℚ))) {k k' : String}
    (kk : String) (v : ℚ) (h : k' ≠ k) :
    lookupA (setIn m k kk v) k' = lookupA m k' := by
  induction m with
  | nil =>
    simp only [setIn, lookupA]
    rw [if_neg (fun he => h he.symm)]
  | cons e rest ih =>
    simp only [setIn]
    by_cases he : e.1 = k
    · rw [if_pos he]
      simp only [lookupA]
      rcases eq_or_ne e.1 k' with h2 | h2
      · exact absurd (h2.symm.trans he) h
      · rw [if_neg h2, if_neg h2]
    · rw [if_neg he]
      simp only [lookupA]
      rcases eq_or_ne e.1 k' with h2 | h2
      · rw [if_pos h2, if_pos h2]
      · rw [if_neg h2, if_neg h2, ih]

theorem keys_setIn (m : List (String × List (String × ℚ))) (k kk : String) (v : ℚ) :
    (setIn m k kk v).map Prod.fst =
      if k ∈ m.map Prod.fst then m.map Prod.fst else m.map Prod.fst ++ [k] := by
  induction m with
  | nil => simp [setIn]
  | cons e rest ih =>
    by_cases h : e.1 = k
    · simp [setIn, h]
    · have hne : ¬ k = e.1 := fun he => h he.symm
      simp only [setIn, if_neg h, List.map_cons, List.mem_cons, hne, false_or]
      by_cases hm : k ∈ rest.map Prod.fst
      · simp [hm, ih]
      · simp [hm, ih]

theorem assoc_ext {m₁ m₂ : List (String × ℚ)}
    (hk : m₁.map Prod.fst = m₂.map Prod.fst) (hn : (m₁.map Prod.fst).Nodup)
    (hl : ∀ k, lookupA m₁ k = lookupA m₂ k) : m₁ = m₂ := by
  induction m₁ generalizing m₂ with
  | nil =>
    cases m₂ with
    | nil => rfl
    | cons e r => cases hk
  | cons e rest ih =>
    cases m₂ with
    | nil => cases hk
    | cons e2 r2 =>
      simp only [List.map_cons, List.cons.injEq] at hk
      have hv := hl e.1
      rw [lookupA, if_pos rfl, lookupA, if_pos hk.1.symm] at hv
      have he : e = e2 := Prod.ext hk.1 (Option.some.inj hv)
      subst he
      rw [List.map_cons, List.nodup_cons] at hn
      refine congrArg (e :: ·) (ih ?_ hn.2 ?_)
      · exact hk.2
      · intro k
        rcases eq_or_ne e.1 k with h2 | h2
        · have h1 : lookupA rest k = none :=
            (lookupA_eq_none_iff rest k).mpr (h2 ▸ hn.1)
          have h3 : lookupA r2 k = none := by
            refine (lookupA_eq_none_iff r2 k).mpr ?_
            rw [← hk.2]
            exact h2 ▸ hn.1
          rw [h1, h3]
        · have hv2 := hl k
          rw [lookupA, if_neg h2, lookupA, if_neg h2] at hv2
          exact hv2

/-! Characterisation of the dict-building folds. -/

theorem distinctCount_eq_dedup_length (l : List String) :
    distinctCount l = l.dedup.length := by
  induction l with
  | nil => simp [distinctCount]
  | cons x xs ih =>
    by_cases h : x ∈ xs
    · rw [distinctCount, if_pos h, List.dedup_cons_of_mem h, ih]
    · rw [distinctCount, if_neg h, List.dedup_cons_of_not_mem h, List.length_cons, ih]

theorem lookupA_bump_self (m : List (String × ℚ × ℚ)) (k : String) (w : ℚ) :
    lookupA (bump m k w) k =
      some (((lookupA m k).getD (0, 0)).1 + 1, ((lookupA m k).getD (0, 0)).2 + w) := by
  induction m with
  | nil => simp [bump, lookupA]
  | cons e rest ih =>
    by_cases h : e.1 = k
    · simp [bump, lookupA, h]
    · simp [bump, lookupA, h, ih]

theorem lookupA_bump_ne (m : List (String × ℚ × ℚ)) {k k' : String} (w : ℚ)
    (h : k' ≠ k) : lookupA (bump m k w) k' = lookupA m k' := by
  induction m with
  | nil =>
    simp only [bump, lookupA]
    rw [if_neg (fun he => h he.symm)]
  | cons e rest ih =>
    simp only [bump]
    by_cases he : e.1 = k
    · rw [if_pos he]
      simp only [lookupA]
      rcases eq_or_ne e.1 k' with h2 | h2
      · exact absurd (h2.symm.trans he) h
      · rw [if_neg h2, if_neg h2]
    · rw [if_neg he]
      simp only [lookupA]
      rcases eq_or_ne e.1 k' with h2 | h2
      · rw [if_pos h2, if_pos h2]
      · rw [if_neg h2, if_neg h2, ih]

theorem keys_bump (m : List (String × ℚ × ℚ)) (k : String) (w : ℚ) :
    (bump m k w).map Prod.fst =
      if k ∈ m.map Prod.fst then m.map Prod.fst else m.map Prod.fst ++ [k] := by
  induction m with
  | nil => simp [bump]
  | cons e rest ih =>
    by_cases h : e.1 = k
    · simp [bump, h]
    · have hne : ¬ k = e.1 := fun he => h he.symm
      simp only [bump, if_neg h, List.map_cons, List.mem_cons, hne, false_or]
      by_cases hm : k ∈ rest.map Prod.fst
      · simp [hm, ih]
      · simp [hm, ih]

theorem lookupA_bumpCount_self (m : List (String × ℕ)) (k : String) :
    lookupA (bumpCount m k) k = some ((lookupA m k).getD 0 + 1) := by
  induction m with
  | nil => simp [bumpCount, lookupA]
  | cons e rest ih =>
    by_cases h : e.1 = k
    · simp [bumpCount, lookupA, h]
    · simp [bumpCount, lookupA, h, ih]

theorem lookupA_bumpCount_ne (m : List (String × ℕ)) {k k' : String}
    (h : k' ≠ k) : lookupA (bumpCount m k) k' = lookupA m k' := by
  induction m with
  | nil =>
    simp only [bumpCount, lookupA]
    rw [if_neg (fun he => h he.symm)]
  | cons e rest ih =>
    simp only [bumpCount]
    by_cases he : e.1 = k
    · rw [if_pos he]
      simp only [lookupA]
      rcases eq_or_ne e.1 k' with h2 | h2
      · exact absurd (h2.symm.trans he) h
      · rw [if_neg h2, if_neg h2]
    · rw [if_neg he]
      simp only [lookupA]
      rcases eq_or_ne e.1 k' with h2 | h2
      · rw [if_pos h2, if_pos h2]
      · rw [if_neg h2, if_neg h2, ih]

theorem keys_bumpCount (m : List (String × ℕ)) (k : String) :
    (bumpCount m k).map Prod.fst =
      if k ∈ m.map Prod.fst then m.map Prod.fst else m.map Prod.fst ++ [k] := by
  induction m with
  | nil => simp [bumpCount]
  | cons e rest ih =>
    by_cases h : e.1 = k
    · simp [bumpCount, h]
    · have hne : ¬ k = e.1 := fun he => h he.symm
      simp only [bumpCount, if_neg h, List.map_cons, List.mem_cons, hne, false_or]
      by_cases hm : k ∈ rest.map Prod.fst
      · simp [hm, ih]
      · simp [hm, ih]

theorem nodup_keys_bump (m : List (String × ℚ × ℚ)) (k : String) (w : ℚ)
    (hn : (m.map Prod.fst).Nodup) : ((bump m k w).map Prod.fst).Nodup := by
  rw [keys_bump]
  by_cases hm : k ∈ m.map Prod.fst
  · rwa [if_pos hm]
  · rw [if_neg hm]
    simp [List.nodup_append, hn, hm]

theorem nodup_keys_bumpCount (m : List (String × ℕ)) (k : String)
    (hn : (m.map Prod.fst).Nodup) : ((bumpCount m k).map Prod.fst).Nodup := by
  rw [keys_bumpCount]
  by_cases hm : k ∈ m.map Prod.fst
  · rwa [if_pos hm]
  · rw [if_neg hm]
    simp [List.nodup_append, hn, hm]

theorem mem_keys_streamFold (s : List (String × ℚ)) (m : List (String × ℚ × ℚ))
    (k : String) :
    k ∈ (streamFold s m).map Prod.fst ↔ k ∈ m.map Prod.fst ∨ k ∈ s.map Prod.fst := by
  induction s generalizing m with
  | nil => simp [streamFold]
  | cons e rest ih =>
    rw [streamFold, ih, keys_bump]
    by_cases hm : e.1 ∈ m.map Prod.fst
    · rw [if_pos hm]
      simp only [List.map_cons, List.mem_cons]
      constructor
      · rintro (h1 | h1)
        · exact Or.inl h1
        · exact Or.inr (Or.inr h1)
      · rintro (h1 | h1 | h1)
        · exact Or.inl h1
        · exact Or.inl (h1 ▸ hm)
        · exact Or.inr h1
    · rw [if_neg hm]
      simp only [List.mem_append, List.mem_singleton, List.map_cons, List.mem_cons]
      tauto

theorem nodup_keys_streamFold (s : List (String × ℚ)) (m : List (String × ℚ × ℚ))
    (hn : (m.map Prod.fst).Nodup) : ((streamFold s m).map Prod.fst).Nodup := by
  induction s generalizing m with
  | nil => exact hn
  | cons e rest ih => exact ih _ (nodup_keys_bump m e.1 e.2 hn)

theorem mem_keys_countFold (s : List String) (m : List (String × ℕ)) (k : String) :
    k ∈ (countFold s m).map Prod.fst ↔ k ∈ m.map Prod.fst ∨ k ∈ s := by
  induction s generalizing m with
  | nil => simp [countFold]
  | cons e rest ih =>
    rw [countFold, ih, keys_bumpCount]
    by_cases hm : e ∈ m.map Prod.fst
    · rw [if_pos hm]
      simp only [List.mem_cons]
      constructor
      · rintro (h1 | h1)
        · exact Or.inl h1
        · exact Or.inr (Or.inr h1)
      · rintro (h1 | h1 | h1)
        · exact Or.inl h1
        · exact Or.inl (h1 ▸ hm)
        · exact Or.inr h1
    · rw [if_neg hm]
      simp only [List.mem_append, List.mem_singleton, List.mem_cons]
      tauto

theorem nodup_keys_countFold (s : List String) (m : List (String × ℕ))
    (hn : (m.map Prod.fst).Nodup) : ((countFold s m).map Prod.fst).Nodup := by
  induction s generalizing m with
  | nil => exact hn
  | cons e rest ih => exact ih _ (nodup_keys_bumpCount m e hn)

theorem lookupA_streamFold (s : List (String × ℚ)) (m : List (String × ℚ × ℚ))
    (k : String) :
    lookupA (streamFold s m) k =
      if k ∈ m.map Prod.fst ∨ k ∈ s.map Prod.fst then
        some (((lookupA m k).getD (0, 0)).1 + ((s.map Prod.fst).count k : ℚ),
              ((lookupA m k).getD (0, 0)).2 + wsum k s)
      else none := by
  induction s generalizing m with
  | nil =>
    simp only [streamFold, List.map_nil, List.not_mem_nil, or_false, List.count_nil,
      Nat.cast_zero, add_zero, wsum, List.filter_nil, List.sum_nil]
    by_cases hm : k ∈ m.map Prod.fst
    · rw [if_pos hm]
      rcases hl : lookupA m k with _ | v
      · exact absurd hm (by rwa [← lookupA_eq_none_iff m k])
      · simp
    · rw [if_neg hm]
      exact (lookupA_eq_none_iff m k).mpr hm
  | cons e rest ih =>
    rw [streamFold, ih]
    by_cases he : e.1 = k
    · have hmem : k ∈ (bump m e.1 e.2).map Prod.fst := by
        rw [keys_bump]
        by_cases hm : e.1 ∈ m.map Prod.fst
        · rw [if_pos hm]
          exact he ▸ hm
        · rw [if_neg hm]
          simp [he]
      rw [if_pos (Or.inl hmem)]
      have hcond : k ∈ m.map Prod.fst ∨ k ∈ (e :: rest).map Prod.fst := by
        simp [he.symm]
      rw [if_pos hcond]
      have hb : lookupA (bump m e.1 e.2) k =
          some (((lookupA m k).getD (0, 0)).1 + 1, ((lookupA m k).getD (0, 0)).2 + e.2) := by
        rw [he] at *
        exact lookupA_bump_self m k e.2
      rw [hb]
      have hcount : ((e :: rest).map Prod.fst).count k = (rest.map Prod.fst).count k + 1 := by
        simp [List.count_cons, he]
      have hws : wsum k (e :: rest) = e.2 + wsum k rest := by
        simp [wsum, List.filter_cons, he]
      rw [hcount, hws]
      simp only [Option.getD_some, Option.some.injEq, Prod.mk.injEq]
      constructor
      · push_cast
        ring
      · ring
    · have hlk : lookupA (bump m e.1 e.2) k = lookupA m k :=
        lookupA_bump_ne m e.2 (fun hh => he hh.symm)
      have hmem : k ∈ (bump m e.1 e.2).map Prod.fst ↔ k ∈ m.map Prod.fst := by
        rw [keys_bump]
        by_cases hm : e.1 ∈ m.map Prod.fst
        · rw [if_pos hm]
        · rw [if_neg hm]
          simp only [List.mem_append, List.mem_singleton]
          constructor
          · rintro (h1 | h1)
            · exact h1
            · exact absurd h1.symm he
          · exact Or.inl
      have hcount : ((e :: rest).map Prod.fst).count k = (rest.map Prod.fst).count k := by
        simp [List.count_cons, he]
      have hws : wsum k (e :: rest) = wsum k rest := by
        have : (e.1 == k) = false := by
          simp [he]
        simp [wsum, List.filter_cons, this]
      have hmem2 : k ∈ (e :: rest).map Prod.fst ↔ k ∈ rest.map Prod.fst := by
        simp only [List.map_cons, List.mem_cons]
        constructor
        · rintro (h1 | h1)
          · exact absurd h1.symm he
          · exact h1
        · exact Or.inr
      rw [hlk, hcount, hws]
      simp only [hmem, hmem2]

theorem lookupA_countFold (s : List String) (m : List (String × ℕ)) (k : String) :
    lookupA (countFold s m) k =
      if k ∈ m.map Prod.fst ∨ k ∈ s then
        some ((lookupA m k).getD 0 + s.count k)
      else none := by
  induction s generalizing m with
  | nil =>
    simp only [countFold, List.not_mem_nil, or_false, List.count_nil, add_zero]
    by_cases hm : k ∈ m.map Prod.fst
    · rw [if_pos hm]
      rcases hl : lookupA m k with _ | v
      · exact absurd hm (by rwa [← lookupA_eq_none_iff m k])
      · simp
    · rw [if_neg hm]
      exact (lookupA_eq_none_iff m k).mpr hm
  | cons e rest ih =>
    rw [countFold, ih]
    by_cases he : e = k
    · have hmem : k ∈ (bumpCount m e).map Prod.fst := by
        rw [keys_bumpCount]
        by_cases hm : e ∈ m.map Prod.fst
        · rw [if_pos hm]
          exact he ▸ hm
        · rw [if_neg hm]
          simp [he]
      rw [if_pos (Or.inl hmem)]
      have hcond : k ∈ m.map Prod.fst ∨ k ∈ e :: rest := by
        simp [he.symm]
      rw [if_pos hcond]
      have hb : lookupA (bumpCount m e) k = some ((lookupA m k).getD 0 + 1) := by
        rw [he] at *
        exact lookupA_bumpCount_self m k
      rw [hb]
      have hcount : (e :: rest).count k = rest.count k + 1 := by
        simp [List.count_cons, he]
      rw [hcount]
      simp only [Option.getD_some, Option.some.injEq]
      omega
    · have hlk : lookupA (bumpCount m e) k = lookupA m k :=
        lookupA_bumpCount_ne m (fun hh => he hh.symm)
      have hmem : k ∈ (bumpCount m e).map Prod.fst ↔ k ∈ m.map Prod.fst := by
        rw [keys_bumpCount]
        by_cases hm : e ∈ m.map Prod.fst
        · rw [if_pos hm]
        · rw [if_neg hm]
          simp only [List.mem_append, List.mem_singleton]
          constructor
          · rintro (h1 | h1)
            · exact h1
            · exact absurd h1.symm he
          · exact Or.inl
      have hcount : (e :: rest).count k = rest.count k := by
        simp [List.count_cons, he]
      have hmem2 : k ∈ e :: rest ↔ k ∈ rest := by
        simp only [List.mem_cons]
        constructor
        · rintro (h1 | h1)
          · exact absurd h1.symm he
          · exact h1
        · exact Or.inr
      rw [hlk, hcount]
      simp only [hmem, hmem2]

/-! The tokenisation loops replay their occurrence streams. -/

theorem tagTokensLoop_eq (sw : List String) (stem : String → String) (w : ℚ)
    (toks : List String) (m : List (String × ℚ × ℚ)) :
    tagTokensLoop sw stem w toks m =
      streamFold (toks.filterMap (fun tok =>
        if pyLower tok ∉ sw ∧ tok.length > 2 ∧ pyIsNumeric (pyLower tok) = false then
          some (stem (pyLower tok), w)
        else none)) m := by
  induction toks generalizing m with
  | nil => rfl
  | cons tok rest ih =>
    simp only [tagTokensLoop, List.filterMap_cons]
    by_cases h1 : pyLower tok ∉ sw ∧ tok.length > 2
    · rcases hb : pyIsNumeric (pyLower tok) with _ | _
      · rw [if_pos h1, if_neg Bool.false_ne_true, if_pos ⟨h1.1, h1.2, rfl⟩]
        exact ih _
      · rw [if_pos h1, if_pos rfl, if_neg (by rintro ⟨-, -, h3⟩; cases h3)]
        exact ih m
    · rw [if_neg h1, if_neg (by rintro ⟨ha, hb2, -⟩; exact h1 ⟨ha, hb2⟩)]
      exact ih m

theorem streamFold_append (s₁ s₂ : List (String × ℚ)) (m : List (String × ℚ × ℚ)) :
    streamFold (s₁ ++ s₂) m = streamFold s₂ (streamFold s₁ m) := by
  induction s₁ generalizing m with
  | nil => rfl
  | cons e rest ih => rw [List.cons_append, streamFold, streamFold, ih]

theorem tagTokensLoop_eq_tagStream (sw : List String) (stem : String → String)
    (t : HtmlTag) (m : List (String × ℚ × ℚ)) :
    tagTokensLoop sw stem (htmlWeight_of t.name) t.tokens m =
      streamFold (tagStream sw stem t) m := by
  rw [tagTokensLoop_eq]
  rfl

theorem tagsLoop_eq (sw : List String) (stem : String → String) (tags : List HtmlTag)
    (m : List (String × ℚ × ℚ)) :
    tagsLoop sw stem tags m = streamFold (docStream sw stem tags) m := by
  induction tags generalizing m with
  | nil => rfl
  | cons t rest ih =>
    have hd : docStream sw stem (t :: rest) = tagStream sw stem t ++ docStream sw stem rest := by
      simp [docStream]
    rw [tagsLoop, ih, tagTokensLoop_eq_tagStream, hd, streamFold_append]

theorem process_document_eq (sw : List String) (stem : String → String)
    (tags : List HtmlTag) :
    process_document sw stem tags = streamFold (docStream sw stem tags) [] :=
  tagsLoop_eq sw stem tags []

theorem queryTokensLoop_eq (stem : String → String) (toks : List String)
    (m : List (String × ℕ)) :
    queryTokensLoop stem toks m = countFold (queryStream stem toks) m := by
  induction toks generalizing m with
  | nil => rfl
  | cons tok rest ih =>
    simp only [queryTokensLoop, queryStream, List.filterMap_cons]
    rcases hb : pyIsNumeric (pyLower tok) with _ | _
    · rw [if_neg Bool.false_ne_true, if_neg Bool.false_ne_true]
      exact ih _
    · rw [if_pos rfl, if_pos rfl]
      exact ih m

theorem tokenize_query_eq (stem : String → String) (toks : List String) :
    tokenize_query stem toks = countFold (queryStream stem toks) [] :=
  queryTokensLoop_eq stem toks []

theorem length_streamFold_nil (s : List (String × ℚ)) :
    (streamFold s []).length = distinctCount (s.map Prod.fst) := by
  have h1 : (streamFold s []).length = ((streamFold s []).map Prod.fst).length := by
    simp
  rw [h1, ← List.toFinset_card_of_nodup (nodup_keys_streamFold s [] (by simp))]
  have h2 : ((streamFold s []).map Prod.fst).toFinset = (s.map Prod.fst).toFinset := by
    ext x
    rw [List.mem_toFinset, List.mem_toFinset, mem_keys_streamFold]
    simp
  rw [h2, List.card_toFinset, distinctCount_eq_dedup_length]

theorem length_countFold_nil (s : List String) :
    (countFold s []).length = distinctCount s := by
  have h1 : (countFold s []).length = ((countFold s []).map Prod.fst).length := by
    simp
  rw [h1, ← List.toFinset_card_of_nodup (nodup_keys_countFold s [] (by simp))]
  have h2 : ((countFold s []).map Prod.fst).toFinset = s.toFinset := by
    ext x
    rw [List.mem_toFinset, List.mem_toFinset, mem_keys_countFold]
    simp
  rw [h2, List.card_toFinset, distinctCount_eq_dedup_length]

theorem length_process_document (sw : List String) (stem : String → String)
    (tags : List HtmlTag) :
    (process_document sw stem tags).length = distinctCount (docLemmas sw stem tags) := by
  rw [process_document_eq, length_streamFold_nil]
  rfl

theorem length_tokenize_query (stem : String → String) (toks : List String) :
    (tokenize_query stem toks).length = distinctCount (queryStream stem toks) := by
  rw [tokenize_query_eq, length_countFold_nil]

theorem lookupA_process_document (sw : List String) (stem : String → String)
    (tags : List HtmlTag) (k : String) :
    lookupA (process_document sw stem tags) k =
      if k ∈ docLemmas sw stem tags then
        some (((docLemmas sw stem tags).count k : ℚ), wsum k (docStream sw stem tags))
      else none := by
  rw [process_document_eq, lookupA_streamFold]
  simp only [List.map_nil, List.not_mem_nil, false_or, lookupA, Option.getD_none, docLemmas]
  by_cases h : k ∈ (docStream sw stem tags).map Prod.fst
  · rw [if_pos h, if_pos h]
    simp
  · rw [if_neg h, if_neg h]

theorem lookupA_tokenize_query (stem : String → String) (toks : List String) (k : String) :
    lookupA (tokenize_query stem toks) k =
      if k ∈ queryStream stem toks then some ((queryStream stem toks).count k) else none := by
  rw [tokenize_query_eq, lookupA_countFold]
  simp only [List.map_nil, List.not_mem_nil, false_or, lookupA, Option.getD_none]
  by_cases h : k ∈ queryStream stem toks
  · rw [if_pos h, if_pos h]
    simp
  · rw [if_neg h, if_neg h]

theorem nodup_keys_process_document (sw : List String) (stem : String → String)
    (tags : List HtmlTag) : ((process_document sw stem tags).map Prod.fst).Nodup := by
  rw [process_document_eq]
  exact nodup_keys_streamFold _ [] (by simp)

theorem nodup_keys_tokenize_query (stem : String → String) (toks : List String) :
    ((tokenize_query stem toks).map Prod.fst).Nodup := by
  rw [tokenize_query_eq]
  exact nodup_keys_countFold _ [] (by simp)

/-! Small ite-option helpers. -/

theorem ite_some_eq_some {α : Type} {c : Prop} [Decidable c] {x l : α} :
    (if c then some x else none) = some l ↔ c ∧ x = l := by
  by_cases h : c <;> simp [h]

theorem ite_none_eq_some {α : Type} {c : Prop} [Decidable c] {x l : α} :
    (if c then none else some x) = some l ↔ ¬c ∧ x = l := by
  by_cases h : c <;> simp [h]

/-- Claim C6: document-side term frequency is the lemma's occurrence count
divided by the document's distinct-lemma count (vocabulary size, not token
count), and the query-side term frequency is the lemma's count divided by the
query's distinct-lemma count. -/
theorem claim6_tf_normalized_by_vocabulary_size :
    (∀ (sw : List String) (stem : String → String) (tags : List HtmlTag)
        (folder file l : String) (p : Posting),
        (l, p) ∈ add_to_index (process_document sw stem tags) folder file →
        p.tf = ((docLemmas sw stem tags).count l : ℚ) /
          (distinctCount (docLemmas sw stem tags) : ℚ))
  ∧ (∀ (stem : String → String) (toks : List String) (l : String) (w : ℚ),
        (l, w) ∈ query_tf stem toks →
        w = ((queryStream stem toks).count l : ℚ) /
          (distinctCount (queryStream stem toks) : ℚ)) := by
  constructor
  · intro sw stem tags folder file l p hmem
    rw [add_to_index, List.mem_map] at hmem
    obtain ⟨e, he, heq⟩ := hmem
    have h1 : e.1 = l := congrArg Prod.fst heq
    have h2 : p = Posting.mk (folder ++ "/" ++ file)
        (e.2.1 / ((process_document sw stem tags).length : ℚ)) e.2.2 none :=
      (congrArg Prod.snd heq).symm
    have hl : lookupA (process_document sw stem tags) l = some e.2 := by
      apply lookupA_of_mem (nodup_keys_process_document sw stem tags)
      rw [← h1]
      simpa using he
    rw [lookupA_process_document] at hl
    by_cases hm : l ∈ docLemmas sw stem tags
    · rw [if_pos hm] at hl
      have h3 := Option.some.inj hl
      have hc : ((docLemmas sw stem tags).count l : ℚ) = e.2.1 := congrArg Prod.fst h3
      rw [h2]
      show e.2.1 / ((process_document sw stem tags).length : ℚ) = _
      rw [← hc, length_process_document]
    · rw [if_neg hm] at hl
      cases hl
  · intro stem toks l w hmem
    rw [query_tf, List.mem_map] at hmem
    obtain ⟨e, he, heq⟩ := hmem
    have h1 : e.1 = l := congrArg Prod.fst heq
    have h2 : w = (e.2 : ℚ) / ((tokenize_query stem toks).length : ℚ) :=
      (congrArg Prod.snd heq).symm
    have hl : lookupA (tokenize_query stem toks) l = some e.2 := by
      apply lookupA_of_mem (nodup_keys_tokenize_query stem toks)
      rw [← h1]
      simpa using he
    rw [lookupA_tokenize_query] at hl
    by_cases hm : l ∈ queryStream stem toks
    · rw [if_pos hm] at hl
      have hc := Option.some.inj hl
      rw [h2, ← hc, length_tokenize_query]
    · rw [if_neg hm] at hl
      cases hl

/-- Witness for C6 at a concrete document: one title tag with one retained
lemma gives tf = 1/1. -/
theorem claim6_witness :
    (Posting.mk "0/1" 1 (3/5) none).tf =
      ((docLemmas sw0 stem0 [HtmlTag.mk "title" ["foxx"]]).count "foxx" : ℚ) /
        (distinctCount (docLemmas sw0 stem0 [HtmlTag.mk "title" ["foxx"]]) : ℚ) :=
  claim6_tf_normalized_by_vocabulary_size.1 sw0 stem0 [HtmlTag.mk "title" ["foxx"]]
    "0" "1" "foxx" (Posting.mk "0/1" 1 (3/5) none) (by
      have h1 : pyLower "foxx" = "foxx" := by decide
      have h2 : pyIsNumeric "foxx" = false := by decide
      have h3 : "foxx".length = 4 := by decide
      norm_num +decide [add_to_index, process_document, tagsLoop, tagTokensLoop, bump,
        htmlWeight_of, htmlWeights, lookupA, h1, h2, h3, stem0, sw0])

/-- Counterexample to claim C7: the purely-numeric discard also applies on the
query path — token "42" contributes no query lemma, although the claim says the
discards apply to the indexing path only and every resulting query token is
stemmed and counted. -/
theorem claim7_counterexample :
    tokenize_query stem0 ["42"] = [] ∧ pyIsNumeric (pyLower "42") = true := by
  constructor
  · decide
  · decide

/-- Claim C7 (amended): a token survives document-side tokenisation iff its
lowercase form is not a stop word, its length exceeds 2 and it is not purely
numeric; a token survives query-side tokenisation iff it is not purely numeric
(the stop-word and minimum-length filters indeed do not apply there, but the
numeric discard does); every surviving token is stemmed. -/
theorem claim7_amended :
    (∀ (sw : List String) (stem : String → String) (tags : List HtmlTag) (l : String),
      l ∈ (process_document sw stem tags).map Prod.fst ↔
        ∃ t ∈ tags, ∃ tok ∈ t.tokens,
          pyLower tok ∉ sw ∧ tok.length > 2 ∧ pyIsNumeric (pyLower tok) = false ∧
            stem (pyLower tok) = l)
  ∧ (∀ (stem : String → String) (toks : List String) (l : String),
      l ∈ (tokenize_query stem toks).map Prod.fst ↔
        ∃ tok ∈ toks, pyIsNumeric (pyLower tok) = false ∧ stem (pyLower tok) = l) := by
  constructor
  · intro sw stem tags l
    rw [process_document_eq, mem_keys_streamFold]
    simp only [List.map_nil, List.not_mem_nil, false_or]
    rw [List.mem_map]
    constructor
    · rintro ⟨e, he, hfst⟩
      rw [docStream, List.mem_flatten] at he
      obtain ⟨str, hstr, hestr⟩ := he
      rw [List.mem_map] at hstr
      obtain ⟨t, ht, rfl⟩ := hstr
      rw [tagStream, List.mem_filterMap] at hestr
      obtain ⟨tok, htok, hsome⟩ := hestr
      simp only [ite_some_eq_some] at hsome
      refine ⟨t, ht, tok, htok, hsome.1.1, hsome.1.2.1, hsome.1.2.2, ?_⟩
      rw [← hfst, ← hsome.2]
    · rintro ⟨t, ht, tok, htok, ha, hb, hc, hstem⟩
      refine ⟨(stem (pyLower tok), htmlWeight_of t.name), ?_, hstem⟩
      rw [docStream, List.mem_flatten]
      refine ⟨tagStream sw stem t, List.mem_map_of_mem _ ht, ?_⟩
      rw [tagStream, List.mem_filterMap]
      exact ⟨tok, htok, by simp only [ite_some_eq_some]; exact ⟨⟨ha, hb, hc⟩, trivial⟩⟩
  · intro stem toks l
    rw [tokenize_query_eq, mem_keys_countFold]
    simp only [List.map_nil, List.not_mem_nil, false_or]
    rw [queryStream, List.mem_filterMap]
    constructor
    · rintro ⟨tok, htok, hsome⟩
      rw [ite_none_eq_some] at hsome
      exact ⟨tok, htok, by simpa using hsome.1, hsome.2⟩
    · rintro ⟨tok, htok, hnum, hstem⟩
      exact ⟨tok, htok, by rw [ite_none_eq_some]; exact ⟨by simp [hnum], hstem⟩⟩

/-- Witness for the amended C7: the short token "ab" (which the document-side
filter would drop) survives query-side tokenisation. -/
theorem claim7_witness :
    "ab" ∈ (tokenize_query stem0 ["ab"]).map Prod.fst :=
  (claim7_amended.2 stem0 ["ab"] "ab").mpr ⟨"ab", by decide, by decide, by decide⟩

/-- Counterexample to claim C8: a tag containing the lemma twice accrues the
tag's weight once per occurrence, i.e. twice (html_weight 0.2), while the
claim's sum over containing tags yields 0.1. -/
theorem claim8_counterexample :
    lookupA (process_document sw0 stem0 [HtmlTag.mk "p" ["foxx", "foxx"]]) "foxx" =
        some (2, 1/5) ∧
    claimedHtmlWeight sw0 stem0 [HtmlTag.mk "p" ["foxx", "foxx"]] "foxx" = 1/10 ∧
    (1/5 : ℚ) ≠ 1/10 := by
  refine ⟨?_, ?_, by norm_num⟩
  · have h1 : pyLower "foxx" = "foxx" := by decide
    have h2 : pyIsNumeric "foxx" = false := by decide
    have h3 : "foxx".length = 4 := by decide
    norm_num +decide [process_document, tagsLoop, tagTokensLoop, bump, htmlWeight_of,
      htmlWeights, lookupA, h1, h2, h3, stem0, sw0]
  · have h1 : pyLower "foxx" = "foxx" := by decide
    have h2 : pyIsNumeric "foxx" = false := by decide
    have h3 : "foxx".length = 4 := by decide
    norm_num +decide [claimedHtmlWeight, tagContains, tagStream, htmlWeight_of, htmlWeights,
      lookupA, h1, h2, h3, stem0, sw0]

/-- Claim C8 (amended): a lemma's accumulated html_weight is the sum over every
retained OCCURRENCE of the lemma of the containing tag's fixed weight
(title=0.6, h1=0.5, h2=0.4, h3=0.3, h4=0.2, 0.1 for any other tag), so a tag
containing the lemma k times contributes k times its weight; weights across
tags still add. -/
theorem claim8_amended (sw : List String) (stem : String → String)
    (tags : List HtmlTag) (l : String) (f h : ℚ)
    (hl : lookupA (process_document sw stem tags) l = some (f, h)) :
    h = wsum l (docStream sw stem tags) := by
  rw [lookupA_process_document] at hl
  by_cases hm : l ∈ docLemmas sw stem tags
  · rw [if_pos hm] at hl
    exact (congrArg Prod.snd (Option.some.inj hl)).symm
  · rw [if_neg hm] at hl
    cases hl

/-- Witness for the amended C8 at the double-occurrence document. -/
theorem claim8_witness :
    (1/5 : ℚ) = wsum "foxx" (docStream sw0 stem0 [HtmlTag.mk "p" ["foxx", "foxx"]]) :=
  claim8_amended sw0 stem0 [HtmlTag.mk "p" ["foxx", "foxx"]] "foxx" 2 (1/5) (by
    have h1 : pyLower "foxx" = "foxx" := by decide
    have h2 : pyIsNumeric "foxx" = false := by decide
    have h3 : "foxx".length = 4 := by decide
    norm_num +decide [process_document, tagsLoop, tagTokensLoop, bump, htmlWeight_of,
      htmlWeights, lookupA, h1, h2, h3, stem0, sw0])

/-- Claim C1 (code bug): the build guard compares the un-awaited
`count_documents` Future object with 0, which is false for every store, so
`build_index` performs no indexing work even when the store is empty — while
the spec-modelled builder populates the empty store from the same corpus. -/
theorem claim1_build_guard_never_builds :
    build_index ln0 sw0 stem0 corpus0 [] = Except.ok [] ∧
    build_index_spec ln0 sw0 stem0 corpus0 [] ≠ [] := by
  constructor
  · simp [build_index, count_documents_unawaited, pyIntEq]
  · have h1 : pyLower "foxx" = "foxx" := by decide
    have h2 : pyIsNumeric "foxx" = false := by decide
    have h3 : "foxx".length = 4 := by decide
    have hval : build_index_spec ln0 sw0 stem0 corpus0 [] =
        [TermRow.mk "foxx" [Posting.mk "0/1" 1 (3/5) (some 0)]] := by
      norm_num +decide [build_index_spec, phase1, applyUpdates, pushPosting, add_to_index,
        process_document, tagsLoop, tagTokensLoop, bump, htmlWeight_of, htmlWeights, lookupA,
        calculate_tf_idf_spec, calculate_tf_idf_updates, rowUpdates, apply_tf_idf_updates,
        applyTfIdfUpdate, setTfIdfFirst, total_docs, allLocations, distinctCount, corpus0,
        h1, h2, h3, stem0, sw0, ln0]
    rw [hval]
    simp

/-- Claim C5 (code bug): the first statement of `calculate_tf_idf` (line 112)
applies `len()` to the un-awaited Motor `distinct` Future, which raises
`TypeError` on every store before any update is computed or written, so no
posting ever carries `tf_idf` — while the spec-modelled backfill writes exactly
the claimed `tf * ln(total_docs/df)` value into every posting. -/
theorem claim5_backfill_raises_before_writing :
    (∀ (ln : ℚ → ℚ) (store : List TermRow),
        calculate_tf_idf ln store = Except.error PyError.typeError) ∧
    calculate_tf_idf ln0 store5 = Except.error PyError.typeError ∧
    (∀ r ∈ store5, ∀ p ∈ r.docs, p.tf_idf = none) ∧
    calculate_tf_idf_spec ln0 store5 =
      [TermRow.mk "fox" [Posting.mk "0/1" (1/2) (3/5) (some ((1/2) * ln0 ((2 : ℚ) / 1)))],
       TermRow.mk "dog" [Posting.mk "0/2" (1/3) (1/10) (some ((1/3) * ln0 ((2 : ℚ) / 1)))]] := by
  refine ⟨fun ln store => rfl, rfl, ?_, ?_⟩
  · simp [store5]
  · norm_num +decide [calculate_tf_idf_spec, calculate_tf_idf_updates, rowUpdates,
      apply_tf_idf_updates, applyTfIdfUpdate, setTfIdfFirst, total_docs, allLocations,
      distinctCount, store5, ln0]

/-! Error propagation through the query pipeline. -/

theorem queryIdfLoop_error (ln : ℚ → ℚ) (store : List TermRow)
    (qtf : List (String × ℚ)) (hex : ∃ e ∈ qtf, find_one store e.1 = none) :
    queryIdfLoop ln store qtf = Except.error PyError.typeError := by
  induction qtf with
  | nil => simp at hex
  | cons e rest ih =>
    obtain ⟨e2, he2, hn⟩ := hex
    rcases List.mem_cons.mp he2 with rfl | he2t
    · rw [queryIdfLoop, hn]
    · rcases hf : find_one store e.1 with _ | row
      · rw [queryIdfLoop, hf]
      · rw [queryIdfLoop, hf, ih ⟨e2, he2t, hn⟩]

theorem get_url_ok_none {data : List (String × String)} {d : String}
    (hn : lookupA data d = none) :
    get_url (FileState.ok data) d = Except.error PyError.keyError := by
  rw [get_url, hn]

theorem get_url_ok_some {data : List (String × String)} {d url : String}
    (hs : lookupA data d = some url) :
    get_url (FileState.ok data) d = Except.ok (some url) := by
  rw [get_url, hs]

theorem getUrlsLoop_keyError (data : List (String × String)) (results : List String)
    (hex : ∃ d ∈ results, lookupA data d = none) :
    getUrlsLoop (FileState.ok data) results = Except.error PyError.keyError := by
  induction results with
  | nil => simp at hex
  | cons d rest ih =>
    obtain ⟨d2, hd2, hn⟩ := hex
    rcases List.mem_cons.mp hd2 with rfl | hd2t
    · rw [getUrlsLoop, get_url_ok_none hn]
    · rcases hl : lookupA data d with _ | url
      · rw [getUrlsLoop, get_url_ok_none hl]
      · rw [getUrlsLoop, get_url_ok_some hl, ih ⟨d2, hd2t, hn⟩]

theorem getUrlsLoop_corrupt (results : List String) :
    getUrlsLoop FileState.corrupt results = Except.ok (results.map (fun _ => none)) := by
  induction results with
  | nil => rfl
  | cons d rest ih =>
    have hg : get_url FileState.corrupt d = Except.ok none := rfl
    rw [getUrlsLoop, hg, ih]
    rfl

/-- Claim C2 (amended): a query lemma that is entirely absent from the store is
NOT treated as zero-weight — `find_one` returns None and the `['docs']`
subscript raises `TypeError`, so the whole query evaluation fails. -/
theorem claim2_absent_lemma_raises (ln sqrtF : ℚ → ℚ) (stem : String → String)
    (store : List TermRow) (toks : List String) (l : String)
    (hl : l ∈ (query_tf stem toks).map Prod.fst) (hn : find_one store l = none) :
    process_query ln sqrtF stem store toks = Except.error PyError.typeError ∧
    calculate_cosine_similarity ln sqrtF stem store toks = Except.error PyError.typeError ∧
    (∀ fs, query_index ln sqrtF stem store fs toks = Except.error PyError.typeError) := by
  rw [List.mem_map] at hl
  obtain ⟨e, he, rfl⟩ := hl
  have hp : process_query ln sqrtF stem store toks = Except.error PyError.typeError := by
    rw [process_query, queryIdfLoop_error ln store _ ⟨e, he, hn⟩]
  have hc : calculate_cosine_similarity ln sqrtF stem store toks =
      Except.error PyError.typeError := by
    rw [calculate_cosine_similarity, hp]
  refine ⟨hp, hc, fun fs => ?_⟩
  rw [query_index, hc]

/-- Counterexample to claim C2: on a store without the lemma "zzz", the query
["zzz"] raises `TypeError` instead of succeeding with zero weight. -/
theorem claim2_counterexample :
    find_one store0 "zzz" = none ∧
    query_index ln0 sqrt0 stem0 store0 fs0 ["zzz"] = Except.error PyError.typeError := by
  constructor
  · decide
  · decide

/-- Witness for the amended C2 at a concrete store and query. -/
theorem claim2_witness :
    process_query ln0 sqrt0 stem0 store0 ["zzz"] = Except.error PyError.typeError :=
  (claim2_absent_lemma_raises ln0 sqrt0 stem0 store0 ["zzz"] "zzz" (by decide) (by decide)).1

/-- Claim C3 (amended): URL-resolution failure is not handled: a ranked
document missing from an intact bookkeeping mapping raises `KeyError` and the
whole query fails; with an unreadable or corrupt mapping every `get_url` call
returns None and `format_urls` raises `AttributeError`. No failed document is
silently omitted. -/
theorem claim3_resolution_failure_aborts (ln sqrtF : ℚ → ℚ) (stem : String → String)
    (store : List TermRow) (toks : List String) (results : List String)
    (hcalc : calculate_cosine_similarity ln sqrtF stem store toks = Except.ok results) :
    (∀ (data : List (String × String)) (d : String), d ∈ results →
        lookupA data d = none →
        query_index ln sqrtF stem store (FileState.ok data) toks =
          Except.error PyError.keyError)
  ∧ (results ≠ [] →
        query_index ln sqrtF stem store FileState.corrupt toks =
          Except.error PyError.attributeError) := by
  constructor
  · intro data d hd hn
    have hne : results.isEmpty = false := by
      cases results with
      | nil => cases hd
      | cons a rest => rfl
    simp only [query_index, hcalc, hne, Bool.false_eq_true, if_false]
    rw [getUrlsLoop_keyError data results ⟨d, hd, hn⟩]
  · intro hne
    have hne2 : results.isEmpty = false := by
      cases results with
      | nil => exact absurd rfl hne
      | cons a rest => rfl
    simp only [query_index, hcalc, hne2, Bool.false_eq_true, if_false]
    rw [getUrlsLoop_corrupt]
    cases results with
    | nil => exact absurd rfl hne
    | cons a rest => rfl

/-- Counterexample to claim C3: the ranked result "0/1" has no bookkeeping
entry, and instead of being omitted it makes the whole query raise `KeyError`;
with a corrupt mapping the query raises `AttributeError`. -/
theorem claim3_counterexample :
    calculate_cosine_similarity ln0 sqrt0 stem0 store0 ["fox"] = Except.ok ["0/1", "0/2"] ∧
    query_index ln0 sqrt0 stem0 store0 fsMismatch ["fox"] = Except.error PyError.keyError ∧
    query_index ln0 sqrt0 stem0 store0 FileState.corrupt ["fox"] =
      Except.error PyError.attributeError := by
  have h1 : pyLower "fox" = "fox" := by decide
  have h2 : pyIsNumeric "fox" = false := by decide
  refine ⟨?_, ?_, ?_⟩ <;>
    norm_num +decide [query_index, calculate_cosine_similarity, process_query, query_tf,
      tokenize_query, queryTokensLoop, bumpCount, queryIdfLoop, find_one, total_docs,
      allLocations, distinctCount, lemmasLoop, postingsLoop, addTo, setIn, setAt, dotLoop,
      docVectorsLoop, normalize_doc_tfidf, sum_sq, sortDesc, List.insertionSort,
      List.orderedInsert, lookupA, getUrlsLoop, get_url, format_urls, store0, fsMismatch,
      ln0, sqrt0, stem0, h1, h2]

/-- Witness for the amended C3 at a concrete store, query and mapping. -/
theorem claim3_witness :
    query_index ln0 sqrt0 stem0 store0 (FileState.ok [("9/9", "www.example.com/x")]) ["fox"] =
      Except.error PyError.keyError := by
  have h1 : pyLower "fox" = "fox" := by decide
  have h2 : pyIsNumeric "fox" = false := by decide
  exact (claim3_resolution_failure_aborts ln0 sqrt0 stem0 store0 ["fox"] ["0/1", "0/2"]
    (by norm_num +decide [calculate_cosine_similarity, process_query, query_tf,
      tokenize_query, queryTokensLoop, bumpCount, queryIdfLoop, find_one, total_docs,
      allLocations, distinctCount, lemmasLoop, postingsLoop, addTo, setIn, setAt, dotLoop,
      docVectorsLoop, normalize_doc_tfidf, sum_sq, sortDesc, List.insertionSort,
      List.orderedInsert, lookupA, store0, ln0, sqrt0, stem0, h1, h2])).1
    [("9/9", "www.example.com/x")] "0/1" (by decide) (by decide)

/-- Claim C9: query evaluation is deterministic — it is a function of the store
state, the bookkeeping file state and the query text, so identical query text
yields the identical ordered result (or the identical exception). -/
theorem claim9_query_determinism (ln sqrtF : ℚ → ℚ) (stem : String → String)
    (store : List TermRow) (fs : FileState) (toks₁ toks₂ : List String)
    (h : toks₁ = toks₂) :
    query_index ln sqrtF stem store fs toks₁ = query_index ln sqrtF stem store fs toks₂ := by
  rw [h]

/-- Witness for C9 at a concrete store and query. -/
theorem claim9_witness :
    query_index ln0 sqrt0 stem0 store0 fs0 ["fox"] =
      query_index ln0 sqrt0 stem0 store0 fs0 ["fox"] :=
  claim9_query_determinism ln0 sqrt0 stem0 store0 fs0 ["fox"] ["fox"] rfl

/-! Success and failure characterisation of the scoring loops. -/

theorem process_query_ok_inv {ln sqrtF : ℚ → ℚ} {stem : String → String}
    {store : List TermRow} {toks : List String} {qw : List (String × ℚ)} {vlen : ℚ}
    (hq : process_query ln sqrtF stem store toks = Except.ok (qw, vlen)) :
    queryIdfLoop ln store (query_tf stem toks) = Except.ok qw := by
  rcases hr : queryIdfLoop ln store (query_tf stem toks) with er | out
  · simp only [process_query, hr] at hq
    exact Except.noConfusion hq
  · simp only [process_query, hr, Except.ok.injEq, Prod.mk.injEq] at hq
    rw [hq.1]

theorem queryIdfLoop_ok_keys {ln : ℚ → ℚ} {store : List TermRow}
    {qtf out : List (String × ℚ)}
    (h : queryIdfLoop ln store qtf = Except.ok out) :
    out.map Prod.fst = qtf.map Prod.fst := by
  induction qtf generalizing out with
  | nil =>
    simp only [queryIdfLoop, Except.ok.injEq] at h
    rw [← h]
  | cons e rest ih =>
    rcases hf : find_one store e.1 with _ | row
    · simp only [queryIdfLoop, hf] at h
      exact Except.noConfusion h
    · simp only [queryIdfLoop, hf] at h
      rcases hr : queryIdfLoop ln store rest with er | out2
      · rw [hr] at h
        exact Except.noConfusion h
      · rw [hr] at h
        simp only [Except.ok.injEq] at h
        rw [← h]
        simp [ih hr]

theorem queryIdfLoop_ok_found {ln : ℚ → ℚ} {store : List TermRow}
    {qtf out : List (String × ℚ)}
    (h : queryIdfLoop ln store qtf = Except.ok out) :
    ∀ e ∈ qtf, (find_one store e.1).isSome = true := by
  induction qtf generalizing out with
  | nil => intro e he; cases he
  | cons e rest ih =>
    rcases hf : find_one store e.1 with _ | row
    · simp only [queryIdfLoop, hf] at h
      exact Except.noConfusion h
    · simp only [queryIdfLoop, hf] at h
      rcases hr : queryIdfLoop ln store rest with er | out2
      · rw [hr] at h
        exact Except.noConfusion h
      · intro e2 he2
        rcases List.mem_cons.mp he2 with rfl | he2t
        · rw [hf]
          rfl
        · exact ih hr e2 he2t

theorem postingsOf_eq {store : List TermRow} {l : String} {row : TermRow}
    (h : find_one store l = some row) : postingsOf store l = row.docs := by
  rw [postingsOf, h]
  rfl

theorem postingsLoop_zeroDiv (ln : ℚ → ℚ) (total n : ℕ) (l : String)
    (pl : List Posting) (hpl : pl ≠ []) (hz : ln ((total : ℚ) / (n : ℚ)) = 0) :
    ∀ acc, postingsLoop ln total n l pl acc = Except.error PyError.zeroDivisionError := by
  intro acc
  cases pl with
  | nil => exact absurd rfl hpl
  | cons p rest =>
    simp only [postingsLoop]
    rw [if_pos hz]

theorem postingsLoop_ok (ln : ℚ → ℚ) (total n : ℕ) (l : String) (pl : List Posting)
    (hz : ln ((total : ℚ) / (n : ℚ)) ≠ 0) :
    ∀ acc, postingsLoop ln total n l pl acc =
      Except.ok (postingsFold ln total n l pl acc) := by
  induction pl with
  | nil => intro acc; rfl
  | cons p rest ih =>
    intro acc
    simp only [postingsLoop, postingsFold, resolveVal, if_neg hz]
    exact ih _

theorem lemmasLoop_ok (ln : ℚ → ℚ) (store : List TermRow) (total : ℕ) (ls : List String)
    (hfound : ∀ l ∈ ls, (find_one store l).isSome = true)
    (hdiv : ∀ l ∈ ls, postingsOf store l ≠ [] →
        ln ((total : ℚ) / ((postingsOf store l).length : ℚ)) ≠ 0) :
    ∀ acc, lemmasLoop ln store total ls acc =
      Except.ok (lemmasFold ln store total ls acc) := by
  induction ls with
  | nil => intro acc; rfl
  | cons l rest ih =>
    intro acc
    have hf := hfound l (List.mem_cons_self l rest)
    rcases hf2 : find_one store l with _ | row
    · rw [hf2] at hf
      cases hf
    · have hpo : postingsOf store l = row.docs := postingsOf_eq hf2
      simp only [lemmasLoop, lemmasFold, hf2, hpo]
      rcases hdocs : row.docs with _ | ⟨p, ps⟩
      · simp only [postingsLoop, postingsFold]
        exact ih (fun x hx => hfound x (List.mem_cons_of_mem l hx))
          (fun x hx h2 => hdiv x (List.mem_cons_of_mem l hx) h2) acc
      · have hne : row.docs ≠ [] := by
          rw [hdocs]
          exact List.cons_ne_nil p ps
        have hz : ln ((total : ℚ) / (row.docs.length : ℚ)) ≠ 0 := by
          have := hdiv l (List.mem_cons_self l rest) (by rwa [hpo])
          rwa [hpo] at this
        rw [← hdocs, postingsLoop_ok ln total row.docs.length l row.docs hz]
        exact ih (fun x hx => hfound x (List.mem_cons_of_mem l hx))
          (fun x hx h2 => hdiv x (List.mem_cons_of_mem l hx) h2) _

theorem lemmasLoop_zeroDiv (ln : ℚ → ℚ) (store : List TermRow) (total : ℕ)
    (ls : List String)
    (hfound : ∀ l ∈ ls, (find_one store l).isSome = true)
    (hex : ∃ l ∈ ls, postingsOf store l ≠ [] ∧
        ln ((total : ℚ) / ((postingsOf store l).length : ℚ)) = 0) :
    ∀ acc, lemmasLoop ln store total ls acc = Except.error PyError.zeroDivisionError := by
  induction ls with
  | nil => simp at hex
  | cons l rest ih =>
    intro acc
    have hf := hfound l (List.mem_cons_self l rest)
    rcases hf2 : find_one store l with _ | row
    · rw [hf2] at hf
      cases hf
    · have hpo : postingsOf store l = row.docs := postingsOf_eq hf2
      simp only [lemmasLoop, hf2]
      by_cases hcase : row.docs ≠ [] ∧ ln ((total : ℚ) / (row.docs.length : ℚ)) = 0
      · rw [postingsLoop_zeroDiv ln total row.docs.length l row.docs hcase.1 hcase.2]
      · push_neg at hcase
        obtain ⟨l2, hl2, hne2, hz2⟩ := hex
        rcases List.mem_cons.mp hl2 with rfl | hl2t
        · rw [hpo] at hne2 hz2
          exact absurd hz2 (hcase hne2)
        · rcases hdocs : row.docs with _ | ⟨p, ps⟩
          · simp only [postingsLoop]
            exact ih (fun x hx => hfound x (List.mem_cons_of_mem l hx))
              ⟨l2, hl2t, hne2, hz2⟩ acc
          · have hne : row.docs ≠ [] := by
              rw [hdocs]
              exact List.cons_ne_nil p ps
            have hz : ln ((total : ℚ) / (row.docs.length : ℚ)) ≠ 0 := hcase hne
            rw [← hdocs, postingsLoop_ok ln total row.docs.length l row.docs hz]
            exact ih (fun x hx => hfound x (List.mem_cons_of_mem l hx))
              ⟨l2, hl2t, hne2, hz2⟩ _

/-- Claim C10: a query lemma present in the store with document frequency equal
to the total distinct document count makes `calculate_cosine_similarity` raise
`ZeroDivisionError` even when every posting carries a backfilled `tf_idf`,
because `doc.get('tf_idf', doc['tf'] / log(total_docs/df))` evaluates its
default argument eagerly and `log(1) = 0`. -/
theorem claim10_df_equal_total_raises_zero_division (ln sqrtF : ℚ → ℚ)
    (stem : String → String) (store : List TermRow) (toks : List String)
    (qw : List (String × ℚ)) (vlen : ℚ) (l : String) (row : TermRow)
    (hq : process_query ln sqrtF stem store toks = Except.ok (qw, vlen))
    (hl : l ∈ qw.map Prod.fst)
    (hrow : find_one store l = some row)
    (hne : row.docs ≠ [])
    (hdf : row.docs.length = total_docs store)
    (hln : ln 1 = 0)
    (_htf : ∀ r ∈ store, ∀ p ∈ r.docs, p.tf_idf.isSome = true) :
    calculate_cosine_similarity ln sqrtF stem store toks =
      Except.error PyError.zeroDivisionError := by
  have hkeys : qw.map Prod.fst = (query_tf stem toks).map Prod.fst :=
    queryIdfLoop_ok_keys (process_query_ok_inv hq)
  have hfound : ∀ l2 ∈ qw.map Prod.fst, (find_one store l2).isSome = true := by
    intro l2 hl2
    rw [hkeys, List.mem_map] at hl2
    obtain ⟨e, he, rfl⟩ := hl2
    exact queryIdfLoop_ok_found (process_query_ok_inv hq) e he
  have hpo : postingsOf store l = row.docs := postingsOf_eq hrow
  have htot : (0 : ℕ) < total_docs store := by
    rw [← hdf]
    cases hd : row.docs with
    | nil => exact absurd hd hne
    | cons p ps => simp [hd]
  have hone : ((total_docs store : ℚ) / ((postingsOf store l).length : ℚ)) = 1 := by
    rw [hpo, hdf]
    exact div_self (by positivity)
  have hex : ∃ l2 ∈ qw.map Prod.fst, postingsOf store l2 ≠ [] ∧
      ln ((total_docs store : ℚ) / ((postingsOf store l2).length : ℚ)) = 0 := by
    refine ⟨l, hl, by rwa [hpo], ?_⟩
    rw [hone, hln]
  simp only [calculate_cosine_similarity, hq]
  rw [lemmasLoop_zeroDiv ln store (total_docs store) (qw.map Prod.fst) hfound hex ([], [])]

/-- Witness for C10: a single-document store — the lone term's df equals
total_docs (= 1), so any query mentioning it crashes with ZeroDivisionError
although its posting carries a tf_idf. -/
theorem claim10_witness :
    calculate_cosine_similarity ln0 sqrt0 stem0 store1 ["uniq"] =
      Except.error PyError.zeroDivisionError := by
  have h1 : pyLower "uniq" = "uniq" := by decide
  have h2 : pyIsNumeric "uniq" = false := by decide
  exact claim10_df_equal_total_raises_zero_division ln0 sqrt0 stem0 store1 ["uniq"]
    [("uniq", 0)] 0 "uniq" (TermRow.mk "uniq" [Posting.mk "0/9" (1/2) (1/10) (some 5)])
    (by norm_num +decide [process_query, query_tf, tokenize_query, queryTokensLoop,
      bumpCount, queryIdfLoop, find_one, total_docs, allLocations, distinctCount,
      sum_sq, lookupA, store1, ln0, sqrt0, stem0, h1, h2])
    (by decide)
    (by norm_num +decide [find_one, store1])
    (by decide)
    (by decide)
    (by norm_num [ln0])
    (by decide)

/-! Helpers for the scoring equivalence (claim C4). -/

theorem mem_extendKeys (ds : List String) : ∀ (ks : List String) (d : String),
    d ∈ extendKeys ks ds ↔ d ∈ ks ∨ d ∈ ds := by
  induction ds with
  | nil => intro ks d; simp [extendKeys]
  | cons e rest ih =>
    intro ks d
    rw [extendKeys, ih]
    by_cases he : e ∈ ks
    · rw [if_pos he]
      simp only [List.mem_cons]
      constructor
      · rintro (h1 | h1)
        · exact Or.inl h1
        · exact Or.inr (Or.inr h1)
      · rintro (h1 | h1 | h1)
        · exact Or.inl h1
        · exact Or.inl (h1 ▸ he)
        · exact Or.inr h1
    · rw [if_neg he]
      simp only [List.mem_append, List.mem_singleton, List.mem_cons]
      tauto

theorem nodup_extendKeys (ds : List String) : ∀ ks : List String,
    ks.Nodup → (extendKeys ks ds).Nodup := by
  induction ds with
  | nil => intro ks h; exact h
  | cons e rest ih =>
    intro ks h
    rw [extendKeys]
    by_cases he : e ∈ ks
    · rw [if_pos he]
      exact ih ks h
    · rw [if_neg he]
      refine ih _ ?_
      simp [List.nodup_append, h, he]

theorem mem_candAux (store : List TermRow) (ls : List String) : ∀ (ks : List String)
    (d : String), d ∈ candAux store ks ls ↔
      d ∈ ks ∨ ∃ l ∈ ls, d ∈ (postingsOf store l).map (fun p => p.location) := by
  induction ls with
  | nil => intro ks d; simp [candAux]
  | cons l rest ih =>
    intro ks d
    rw [candAux, ih, mem_extendKeys]
    simp only [List.mem_cons]
    constructor
    · rintro ((h1 | h1) | ⟨l2, hl2, h2⟩)
      · exact Or.inl h1
      · exact Or.inr ⟨l, Or.inl rfl, h1⟩
      · exact Or.inr ⟨l2, Or.inr hl2, h2⟩
    · rintro (h1 | ⟨l2, hl2 | hl2, h2⟩)
      · exact Or.inl (Or.inl h1)
      · exact Or.inl (Or.inr (hl2 ▸ h2))
      · exact Or.inr ⟨l2, hl2, h2⟩

theorem nodup_candAux (store : List TermRow) (ls : List String) : ∀ ks : List String,
    ks.Nodup → (candAux store ks ls).Nodup := by
  induction ls with
  | nil => intro ks h; exact h
  | cons l rest ih =>
    intro ks h
    rw [candAux]
    exact ih _ (nodup_extendKeys _ ks h)

theorem htmlOf_eq_zero {pl : List Posting} {d : String}
    (h : d ∉ pl.map (fun p => p.location)) : htmlOf pl d = 0 := by
  rw [htmlOf]
  have hfil : pl.filter (fun p => p.location == d) = [] := by
    rw [List.filter_eq_nil_iff]
    intro p hp
    simp only [beq_iff_eq]
    intro he
    exact h (he ▸ List.mem_map_of_mem (fun p => p.location) hp)
  rw [hfil]
  rfl

theorem htmlOf_cons_self {p : Posting} {rest : List Posting} {d : String}
    (h : p.location = d) : htmlOf (p :: rest) d = p.html_weight / 10000 + htmlOf rest d := by
  rw [htmlOf, htmlOf, List.filter_cons, if_pos (by simpa using h)]
  simp

theorem htmlOf_cons_ne {p : Posting} {rest : List Posting} {d : String}
    (h : ¬p.location = d) : htmlOf (p :: rest) d = htmlOf rest d := by
  rw [htmlOf, htmlOf, List.filter_cons, if_neg (by simpa using h)]

theorem htmlSum_eq_zero {store : List TermRow} {ls : List String} {d : String}
    (h : ∀ l ∈ ls, d ∉ (postingsOf store l).map (fun p => p.location)) :
    htmlSum store ls d = 0 := by
  rw [htmlSum]
  induction ls with
  | nil => rfl
  | cons l rest ih =>
    rw [List.map_cons, List.sum_cons,
      htmlOf_eq_zero (h l (List.mem_cons_self l rest)),
      ih (fun x hx => h x (List.mem_cons_of_mem l hx)), add_zero]

theorem htmlSum_cons (store : List TermRow) (l : String) (rest : List String) (d : String) :
    htmlSum store (l :: rest) d = htmlOf (postingsOf store l) d + htmlSum store rest d := by
  rw [htmlSum, htmlSum, List.map_cons, List.sum_cons]

theorem dotLoop_eq (qw : List (String × ℚ)) (data : List (String × ℚ)) : ∀ c : ℚ,
    dotLoop qw data c = c + (data.map (fun e => (lookupA qw e.1).getD 0 * e.2)).sum := by
  induction data with
  | nil => intro c; simp [dotLoop]
  | cons e rest ih =>
    intro c
    rw [dotLoop, ih]
    simp only [List.map_cons, List.sum_cons]
    ring

theorem sum_map_add {α : Type} (l : List α) (f g : α → ℚ) :
    (l.map (fun a => f a + g a)).sum = (l.map f).sum + (l.map g).sum := by
  induction l with
  | nil => simp
  | cons a rest ih =>
    simp only [List.map_cons, List.sum_cons, ih]
    ring

theorem sum_map_filter_eq {α : Type} (l : List α) (c : α → Bool) (g : α → ℚ) :
    ((l.filter c).map g).sum = (l.map (fun a => if c a = true then g a else 0)).sum := by
  induction l with
  | nil => rfl
  | cons a rest ih =>
    rw [List.filter_cons, List.map_cons, List.sum_cons]
    by_cases hc : c a = true
    · rw [if_pos hc, if_pos hc, List.map_cons, List.sum_cons, ih]
    · rw [if_neg hc, if_neg hc, ih]
      exact (zero_add _).symm

theorem lookupA_map_pair (xs : List String) (f : String → ℚ) (k : String) :
    lookupA (xs.map (fun d => (d, f d))) k = if k ∈ xs then some (f k) else none := by
  induction xs with
  | nil => simp [lookupA]
  | cons x rest ih =>
    simp only [List.map_cons, lookupA]
    by_cases hx : x = k
    · subst hx
      rw [if_pos rfl, if_pos (List.mem_cons_self x rest)]
    · rw [if_neg hx, ih]
      by_cases hm : k ∈ rest
      · rw [if_pos hm, if_pos (List.mem_cons_of_mem x hm)]
      · have hnm : k ∉ x :: rest := by
          simp only [List.mem_cons]
          rintro (h1 | h1)
          · exact hx h1.symm
          · exact hm h1
        rw [if_neg hm, if_neg hnm]

theorem sortDesc_sorted (l : List (String × ℚ)) :
    List.Sorted (fun a b : String × ℚ => b.2 ≤ a.2) (sortDesc l) := by
  haveI : IsTotal (String × ℚ) (fun a b : String × ℚ => b.2 ≤ a.2) :=
    ⟨fun a b => le_total b.2 a.2⟩
  haveI : IsTrans (String × ℚ) (fun a b : String × ℚ => b.2 ≤ a.2) :=
    ⟨fun _ _ _ h1 h2 => le_trans h2 h1⟩
  exact List.sorted_insertionSort _ l

/-! Characterisation of the first scoring loop over one postings list. -/

theorem keys_fst_postingsFold (ln : ℚ → ℚ) (total n : ℕ) (l : String)
    (pl : List Posting) : ∀ acc : QState,
    (postingsFold ln total n l pl acc).1.map Prod.fst =
      extendKeys (acc.1.map Prod.fst) (pl.map (fun p => p.location)) := by
  induction pl with
  | nil => intro acc; rfl
  | cons p rest ih =>
    intro acc
    rw [postingsFold, ih, keys_addTo, List.map_cons, extendKeys]

theorem keys_snd_postingsFold (ln : ℚ → ℚ) (total n : ℕ) (l : String)
    (pl : List Posting) : ∀ acc : QState,
    (postingsFold ln total n l pl acc).2.map Prod.fst =
      extendKeys (acc.2.map Prod.fst) (pl.map (fun p => p.location)) := by
  induction pl with
  | nil => intro acc; rfl
  | cons p rest ih =>
    intro acc
    rw [postingsFold, ih, keys_setIn, List.map_cons, extendKeys]

theorem lookupA_fst_postingsFold (ln : ℚ → ℚ) (total n : ℕ) (l : String)
    (pl : List Posting) : ∀ (acc : QState) (d : String),
    lookupA (postingsFold ln total n l pl acc).1 d =
      if d ∈ pl.map (fun p => p.location) then
        some ((lookupA acc.1 d).getD 0 + htmlOf pl d)
      else lookupA acc.1 d := by
  induction pl with
  | nil => intro acc d; simp [postingsFold]
  | cons p rest ih =>
    intro acc d
    rw [postingsFold, ih]
    by_cases hd : p.location = d
    · subst hd
      have hmem : p.location ∈ (p :: rest).map (fun q => q.location) := by simp
      rw [if_pos hmem]
      have ha : lookupA (addTo acc.1 p.location (p.html_weight / 10000)) p.location =
          some ((lookupA acc.1 p.location).getD 0 + p.html_weight / 10000) :=
        lookupA_addTo_self acc.1 p.location _
      by_cases hr : p.location ∈ rest.map (fun q => q.location)
      · rw [if_pos hr, ha]
        simp only [Option.getD_some]
        rw [htmlOf_cons_self rfl]
        congr 1
        ring
      · rw [if_neg hr, ha, htmlOf_cons_self rfl, htmlOf_eq_zero hr]
        congr 1
        ring
    · have hlk : lookupA (addTo acc.1 p.location (p.html_weight / 10000)) d =
          lookupA acc.1 d := lookupA_addTo_ne acc.1 _ (fun h => hd h.symm)
      rw [hlk, htmlOf_cons_ne hd]
      have hmm : d ∈ (p :: rest).map (fun q => q.location) ↔
          d ∈ rest.map (fun q => q.location) := by
        simp only [List.map_cons, List.mem_cons]
        constructor
        · rintro (h1 | h1)
          · exact absurd h1.symm hd
          · exact h1
        · exact Or.inr
      simp only [hmm]

theorem lookupA_snd_postingsFold (ln : ℚ → ℚ) (total n : ℕ) (l : String)
    (pl : List Posting) : ∀ (acc : QState) (d : String),
    (pl.map (fun p => p.location)).Nodup →
    (∀ d2 ∈ pl.map (fun p => p.location),
        l ∉ ((lookupA acc.2 d2).getD []).map Prod.fst) →
    lookupA (postingsFold ln total n l pl acc).2 d =
      if d ∈ pl.map (fun p => p.location) then
        some (((lookupA acc.2 d).getD []) ++
          [(l, match pl.find? (fun p => p.location == d) with
               | some p => resolveVal ln total n p
               | none => 0)])
      else lookupA acc.2 d := by
  induction pl with
  | nil => intro acc d _ _; simp [postingsFold]
  | cons p rest ih =>
    intro acc d hnd hdisj
    rw [List.map_cons, List.nodup_cons] at hnd
    rw [postingsFold]
    by_cases hd : p.location = d
    · subst hd
      have hmem : p.location ∈ (p :: rest).map (fun q => q.location) := by simp
      rw [if_pos hmem]
      have hrest : p.location ∉ rest.map (fun q => q.location) := hnd.1
      rw [ih _ _ hnd.2 ?hdisj2]
      case hdisj2 =>
        intro d2 hd2
        have hne : d2 ≠ p.location := fun h => hrest (h ▸ hd2)
        rw [lookupA_setIn_ne acc.2 l (resolveVal ln total n p) hne]
        exact hdisj d2 (List.mem_cons_of_mem _ hd2)
      rw [if_neg hrest, lookupA_setIn_self]
      have hin : l ∉ ((lookupA acc.2 p.location).getD []).map Prod.fst :=
        hdisj p.location hmem
      rw [setAt_of_not_mem _ hin]
      have hfind : (p :: rest).find? (fun q => q.location == p.location) = some p :=
        List.find?_cons_of_pos _ (by simp)
      rw [hfind]
    · have hmm : d ∈ (p :: rest).map (fun q => q.location) ↔
          d ∈ rest.map (fun q => q.location) := by
        simp only [List.map_cons, List.mem_cons]
        constructor
        · rintro (h1 | h1)
          · exact absurd h1.symm hd
          · exact h1
        · exact Or.inr
      have hfind : (p :: rest).find? (fun q => q.location == d) =
          rest.find? (fun q => q.location == d) :=
        List.find?_cons_of_neg _ (by simpa using hd)
      rw [ih _ _ hnd.2 ?hdisj2]
      case hdisj2 =>
        intro d2 hd2
        have hne : d2 ≠ p.location := fun h => hnd.1 (h ▸ hd2)
        rw [lookupA_setIn_ne acc.2 l (resolveVal ln total n p) hne]
        exact hdisj d2 (List.mem_cons_of_mem _ hd2)
      have hlk : lookupA (setIn acc.2 p.location l (resolveVal ln total n p)) d =
          lookupA acc.2 d := lookupA_setIn_ne acc.2 l _ (fun h => hd h.symm)
      rw [hlk, hfind]
      simp only [hmm]

/-! Characterisation of the first scoring loop over all query lemmas. -/

theorem keys_fst_lemmasFold (ln : ℚ → ℚ) (store : List TermRow) (total : ℕ)
    (ls : List String) : ∀ acc : QState,
    (lemmasFold ln store total ls acc).1.map Prod.fst =
      candAux store (acc.1.map Prod.fst) ls := by
  induction ls with
  | nil => intro acc; rfl
  | cons l rest ih =>
    intro acc
    rw [lemmasFold, ih, keys_fst_postingsFold, candAux]

theorem keys_snd_lemmasFold (ln : ℚ → ℚ) (store : List TermRow) (total : ℕ)
    (ls : List String) : ∀ acc : QState,
    (lemmasFold ln store total ls acc).2.map Prod.fst =
      candAux store (acc.2.map Prod.fst) ls := by
  induction ls with
  | nil => intro acc; rfl
  | cons l rest ih =>
    intro acc
    rw [lemmasFold, ih, keys_snd_postingsFold, candAux]

theorem lookupA_fst_lemmasFold (ln : ℚ → ℚ) (store : List TermRow) (total : ℕ)
    (ls : List String) : ∀ (acc : QState) (d : String),
    lookupA (lemmasFold ln store total ls acc).1 d =
      if ∃ l ∈ ls, d ∈ (postingsOf store l).map (fun p => p.location) then
        some ((lookupA acc.1 d).getD 0 + htmlSum store ls d)
      else lookupA acc.1 d := by
  induction ls with
  | nil => intro acc d; simp [lemmasFold]
  | cons l rest ih =>
    intro acc d
    rw [lemmasFold, ih, lookupA_fst_postingsFold]
    by_cases hh : d ∈ (postingsOf store l).map (fun p => p.location)
    · have hcons : ∃ l2 ∈ l :: rest, d ∈ (postingsOf store l2).map (fun p => p.location) :=
        ⟨l, List.mem_cons_self l rest, hh⟩
      rw [if_pos hh, if_pos hcons, htmlSum_cons]
      by_cases hr : ∃ l2 ∈ rest, d ∈ (postingsOf store l2).map (fun p => p.location)
      · rw [if_pos hr]
        simp only [Option.getD_some]
        congr 1
        ring
      · rw [if_neg hr]
        have h0 : htmlSum store rest d = 0 := by
          refine htmlSum_eq_zero ?_
          intro l2 hl2 h2
          exact hr ⟨l2, hl2, h2⟩
        rw [h0]
        congr 1
        ring
    · rw [if_neg hh]
      have hcond : (∃ l2 ∈ l :: rest, d ∈ (postingsOf store l2).map (fun p => p.location)) ↔
          ∃ l2 ∈ rest, d ∈ (postingsOf store l2).map (fun p => p.location) := by
        constructor
        · rintro ⟨l2, hl2, h2⟩
          rcases List.mem_cons.mp hl2 with rfl | hl2t
          · exact absurd h2 hh
          · exact ⟨l2, hl2t, h2⟩
        · rintro ⟨l2, hl2, h2⟩
          exact ⟨l2, List.mem_cons_of_mem l hl2, h2⟩
      rw [htmlSum_cons, htmlOf_eq_zero hh, zero_add]
      simp only [hcond]

theorem hasDocB_iff (store : List TermRow) (l d : String) :
    hasDocB store l d = true ↔ d ∈ (postingsOf store l).map (fun p => p.location) := by
  rw [hasDocB, List.any_eq_true]
  constructor
  · rintro ⟨p, hp, hbe⟩
    exact (beq_iff_eq.mp hbe) ▸ List.mem_map_of_mem (fun p => p.location) hp
  · intro hm
    rw [List.mem_map] at hm
    obtain ⟨p, hp, hpd⟩ := hm
    exact ⟨p, hp, beq_iff_eq.mpr hpd⟩

theorem pairsList_cons (ln : ℚ → ℚ) (store : List TermRow) (l : String)
    (rest : List String) (d : String) :
    pairsList ln store (l :: rest) d =
      if hasDocB store l d = true then
        (l, pairVal ln store l d) :: pairsList ln store rest d
      else pairsList ln store rest d := by
  rw [pairsList, List.filter_cons]
  by_cases h : hasDocB store l d = true
  · rw [if_pos h, if_pos h, List.map_cons]
    rfl
  · rw [if_neg h, if_neg h]
    rfl

theorem pairsList_eq_nil (ln : ℚ → ℚ) (store : List TermRow) (rest : List String)
    (d : String)
    (h : ∀ l ∈ rest, d ∉ (postingsOf store l).map (fun p => p.location)) :
    pairsList ln store rest d = [] := by
  rw [pairsList]
  have hfil : rest.filter (fun l => hasDocB store l d) = [] := by
    rw [List.filter_eq_nil_iff]
    intro l hl hb
    exact h l hl ((hasDocB_iff store l d).mp hb)
  rw [hfil]
  rfl

theorem lookupA_snd_lemmasFold (ln : ℚ → ℚ) (store : List TermRow)
    (ls : List String) : ∀ (acc : QState) (d : String),
    ls.Nodup →
    (∀ l ∈ ls, ((postingsOf store l).map (fun p => p.location)).Nodup) →
    (∀ d2 : String, ∀ k ∈ ((lookupA acc.2 d2).getD []).map Prod.fst, k ∉ ls) →
    lookupA (lemmasFold ln store (total_docs store) ls acc).2 d =
      if ∃ l ∈ ls, d ∈ (postingsOf store l).map (fun p => p.location) then
        some (((lookupA acc.2 d).getD []) ++ pairsList ln store ls d)
      else lookupA acc.2 d := by
  induction ls with
  | nil => intro acc d _ _ _; simp [lemmasFold]
  | cons l rest ih =>
    intro acc d hnd hrow hdisj
    rw [List.nodup_cons] at hnd
    rw [lemmasFold]
    have hrowl := hrow l (List.mem_cons_self l rest)
    have hP4 := lookupA_snd_postingsFold ln (total_docs store)
      (postingsOf store l).length l (postingsOf store l) acc
    have hdisjl : ∀ d2 ∈ (postingsOf store l).map (fun p => p.location),
        l ∉ ((lookupA acc.2 d2).getD []).map Prod.fst := by
      intro d2 _ hk
      exact (hdisj d2 l hk) (List.mem_cons_self l rest)
    have hmatch : ∀ d2 : String,
        (match (postingsOf store l).find? (fun p => p.location == d2) with
         | some p => resolveVal ln (total_docs store) (postingsOf store l).length p
         | none => 0) = pairVal ln store l d2 := by
      intro d2
      rfl
    have hdisj2 : ∀ d2 : String,
        ∀ k ∈ ((lookupA (postingsFold ln (total_docs store)
            (postingsOf store l).length l (postingsOf store l) acc).2 d2).getD []).map
            Prod.fst, k ∉ rest := by
      intro d2 k hk
      rw [hP4 d2 hrowl hdisjl] at hk
      by_cases hd2 : d2 ∈ (postingsOf store l).map (fun p => p.location)
      · rw [if_pos hd2] at hk
        simp only [Option.getD_some, List.map_append, List.mem_append] at hk
        rcases hk with hk | hk
        · exact fun hr => (hdisj d2 k hk) (List.mem_cons_of_mem l hr)
        · simp only [List.map_cons, List.map_nil, List.mem_singleton] at hk
          exact hk ▸ hnd.1
      · rw [if_neg hd2] at hk
        exact fun hr => (hdisj d2 k hk) (List.mem_cons_of_mem l hr)
    rw [ih _ d hnd.2 (fun x hx => hrow x (List.mem_cons_of_mem l hx)) hdisj2]
    rw [pairsList_cons]
    by_cases hh : d ∈ (postingsOf store l).map (fun p => p.location)
    · have hcons : ∃ l2 ∈ l :: rest, d ∈ (postingsOf store l2).map (fun p => p.location) :=
        ⟨l, List.mem_cons_self l rest, hh⟩
      rw [if_pos hcons, if_pos ((hasDocB_iff store l d).mpr hh)]
      have hval : lookupA (postingsFold ln (total_docs store)
          (postingsOf store l).length l (postingsOf store l) acc).2 d =
          some (((lookupA acc.2 d).getD []) ++ [(l, pairVal ln store l d)]) := by
        rw [hP4 d hrowl hdisjl, if_pos hh, hmatch]
      by_cases hr : ∃ l2 ∈ rest, d ∈ (postingsOf store l2).map (fun p => p.location)
      · rw [if_pos hr, hval]
        simp only [Option.getD_some]
        rw [List.append_assoc, List.singleton_append]
      · rw [if_neg hr, hval]
        rw [pairsList_eq_nil ln store rest d (fun l2 hl2 h2 => hr ⟨l2, hl2, h2⟩)]
    · rw [if_neg ((by rw [hasDocB_iff]; exact hh) : ¬hasDocB store l d = true)]
      have hval : lookupA (postingsFold ln (total_docs store)
          (postingsOf store l).length l (postingsOf store l) acc).2 d =
          lookupA acc.2 d := by
        rw [hP4 d hrowl hdisjl, if_neg hh]
      rw [hval]
      have hcond : (∃ l2 ∈ l :: rest, d ∈ (postingsOf store l2).map (fun p => p.location)) ↔
          ∃ l2 ∈ rest, d ∈ (postingsOf store l2).map (fun p => p.location) := by
        constructor
        · rintro ⟨l2, hl2, h2⟩
          rcases List.mem_cons.mp hl2 with rfl | hl2t
          · exact absurd h2 hh
          · exact ⟨l2, hl2t, h2⟩
        · rintro ⟨l2, hl2, h2⟩
          exact ⟨l2, List.mem_cons_of_mem l hl2, h2⟩
      simp only [hcond]

/-! Characterisation of the second scoring loop and final assembly. -/

theorem lookupA_docVectorsLoop (qw : List (String × ℚ))
    (dv : List (String × List (String × ℚ))) :
    ∀ (sc : List (String × ℚ)) (d : String), (dv.map Prod.fst).Nodup →
    lookupA (docVectorsLoop qw dv sc) d =
      match lookupA dv d with
      | some data => some ((lookupA sc d).getD 0 + dotLoop qw data 0)
      | none => lookupA sc d := by
  induction dv with
  | nil => intro sc d _; simp [docVectorsLoop, lookupA]
  | cons e rest ih =>
    intro sc d hnd
    rw [List.map_cons, List.nodup_cons] at hnd
    rw [docVectorsLoop, ih _ _ hnd.2]
    by_cases hd : e.1 = d
    · subst hd
      have hnone : lookupA rest e.1 = none := (lookupA_eq_none_iff rest e.1).mpr hnd.1
      have hhead : lookupA (e :: rest) e.1 = some e.2 := by
        rw [lookupA, if_pos rfl]
      simp only [hnone, hhead]
      rw [lookupA_addTo_self]
    · have hcons : lookupA (e :: rest) d = lookupA rest d := by
        rw [lookupA, if_neg hd]
      have haddne : lookupA (addTo sc e.1 (dotLoop qw e.2 0)) d = lookupA sc d :=
        lookupA_addTo_ne sc _ (fun h => hd h.symm)
      rw [hcons, haddne]

theorem keys_docVectorsLoop (qw : List (String × ℚ))
    (dv : List (String × List (String × ℚ))) :
    ∀ sc : List (String × ℚ), (∀ k ∈ dv.map Prod.fst, k ∈ sc.map Prod.fst) →
    (docVectorsLoop qw dv sc).map Prod.fst = sc.map Prod.fst := by
  induction dv with
  | nil => intro sc _; rfl
  | cons e rest ih =>
    intro sc hsub
    rw [docVectorsLoop]
    have hmem : e.1 ∈ sc.map Prod.fst := hsub e.1 (by simp)
    have hkeys : (addTo sc e.1 (dotLoop qw e.2 0)).map Prod.fst = sc.map Prod.fst := by
      rw [keys_addTo, if_pos hmem]
    have hsub2 : ∀ k ∈ rest.map Prod.fst,
        k ∈ (addTo sc e.1 (dotLoop qw e.2 0)).map Prod.fst := by
      intro k hk
      rw [hkeys]
      exact hsub k (List.mem_cons_of_mem _ hk)
    rw [ih _ hsub2, hkeys]

theorem find_one_mem {store : List TermRow} {l : String} {row : TermRow}
    (h : find_one store l = some row) : row ∈ store := by
  induction store with
  | nil => cases h
  | cons r rest ih =>
    by_cases hr : r.lem = l
    · rw [find_one, if_pos hr] at h
      injection h with h2
      subst h2
      exact List.mem_cons_self r rest
    · rw [find_one, if_neg hr] at h
      exact List.mem_cons_of_mem _ (ih h)

theorem filter_loc_eq_singleton {pl : List Posting} {d : String} {p : Posting}
    (hn : (pl.map (fun q => q.location)).Nodup)
    (hf : pl.find? (fun q => q.location == d) = some p) :
    pl.filter (fun q => q.location == d) = [p] := by
  induction pl with
  | nil => cases hf
  | cons q rest ih =>
    rw [List.map_cons, List.nodup_cons] at hn
    by_cases hq : (q.location == d) = true
    · have hf2 : List.find? (fun r => r.location == d) (q :: rest) = some q :=
        List.find?_cons_of_pos rest hq
      rw [hf2] at hf
      injection hf with hqp
      subst hqp
      rw [List.filter_cons, if_pos hq]
      have hd : q.location = d := beq_iff_eq.mp hq
      have hrest : rest.filter (fun r => r.location == d) = [] := by
        rw [List.filter_eq_nil_iff]
        intro r hr hb
        have hrd : r.location = d := beq_iff_eq.mp hb
        apply hn.1
        rw [hd, ← hrd]
        exact List.mem_map_of_mem (fun q => q.location) hr
      rw [hrest]
    · have hf2 : List.find? (fun r => r.location == d) (q :: rest) =
          List.find? (fun r => r.location == d) rest :=
        List.find?_cons_of_neg rest hq
      rw [hf2] at hf
      rw [List.filter_cons, if_neg hq]
      exact ih hn.2 hf

theorem claimedScore_eq (ln : ℚ → ℚ) (store : List TermRow) (qw : List (String × ℚ))
    (d : String)
    (hnq : (qw.map Prod.fst).Nodup)
    (hrow : ∀ l ∈ qw.map Prod.fst,
      ((postingsOf store l).map (fun p => p.location)).Nodup) :
    claimedScore ln store qw d =
      htmlSum store (qw.map Prod.fst) d +
        ((pairsList ln store (qw.map Prod.fst) d).map
          (fun e => (lookupA qw e.1).getD 0 * e.2)).sum := by
  have hdot : ((pairsList ln store (qw.map Prod.fst) d).map
      (fun e => (lookupA qw e.1).getD 0 * e.2)).sum =
      ((qw.map Prod.fst).map (fun l =>
        if hasDocB store l d = true then (lookupA qw l).getD 0 * pairVal ln store l d
        else 0)).sum := by
    rw [pairsList, List.map_map, sum_map_filter_eq]
    simp only [Function.comp_apply]
  rw [hdot, htmlSum, ← sum_map_add, claimedScore, List.map_map]
  apply congrArg List.sum
  apply List.map_congr_left
  intro lw hlw
  simp only [Function.comp_apply]
  rcases hf : (postingsOf store lw.1).find? (fun p => p.location == d) with _ | p
  · simp only [hf]
    have hno : d ∉ (postingsOf store lw.1).map (fun p => p.location) := by
      intro hm
      rw [List.mem_map] at hm
      obtain ⟨p, hp, hpd⟩ := hm
      exact (List.find?_eq_none.mp hf p hp) (beq_iff_eq.mpr hpd)
    have hb : hasDocB store lw.1 d = false := by
      rw [← Bool.not_eq_true, hasDocB_iff]
      exact hno
    rw [htmlOf_eq_zero hno, if_neg (by rw [hb]; exact Bool.false_ne_true)]
    norm_num
  · simp only [hf]
    have hmem : lw.1 ∈ qw.map Prod.fst := List.mem_map_of_mem Prod.fst hlw
    have hlkq : lookupA qw lw.1 = some lw.2 := by
      apply lookupA_of_mem hnq
      have heta : (lw.1, lw.2) = lw := Prod.mk.eta
      rw [heta]
      exact hlw
    have hb : hasDocB store lw.1 d = true := by
      rw [hasDocB_iff]
      have hploc := List.find?_some hf
      have hpm : p ∈ postingsOf store lw.1 := List.mem_of_find?_eq_some hf
      exact (beq_iff_eq.mp hploc) ▸ List.mem_map_of_mem (fun p => p.location) hpm
    have hpv : pairVal ln store lw.1 d =
        resolveVal ln (total_docs store) (postingsOf store lw.1).length p := by
      simp only [pairVal, hf]
    have hhtml1 : htmlOf (postingsOf store lw.1) d = p.html_weight / 10000 := by
      rw [htmlOf, filter_loc_eq_singleton (hrow lw.1 hmem) hf]
      simp
    rw [if_pos hb, hhtml1, hpv, hlkq]
    simp only [Option.getD_some]
    ring

theorem scores_eq_claimedScores (ln : ℚ → ℚ) (store : List TermRow)
    (qw : List (String × ℚ))
    (hnq : (qw.map Prod.fst).Nodup)
    (hrow : ∀ l ∈ qw.map Prod.fst,
      ((postingsOf store l).map (fun p => p.location)).Nodup) :
    docVectorsLoop qw
        (lemmasFold ln store (total_docs store) (qw.map Prod.fst) ([], [])).2
        (lemmasFold ln store (total_docs store) (qw.map Prod.fst) ([], [])).1 =
      (candidates store (qw.map Prod.fst)).map
        (fun d => (d, claimedScore ln store qw d)) := by
  have hk1 : (lemmasFold ln store (total_docs store) (qw.map Prod.fst) ([], [])).1.map
      Prod.fst = candidates store (qw.map Prod.fst) :=
    keys_fst_lemmasFold ln store (total_docs store) (qw.map Prod.fst) ([], [])
  have hk2 : (lemmasFold ln store (total_docs store) (qw.map Prod.fst) ([], [])).2.map
      Prod.fst = candidates store (qw.map Prod.fst) :=
    keys_snd_lemmasFold ln store (total_docs store) (qw.map Prod.fst) ([], [])
  have hnodupc : (candidates store (qw.map Prod.fst)).Nodup :=
    nodup_candAux store (qw.map Prod.fst) [] List.nodup_nil
  have hkf : (docVectorsLoop qw
      (lemmasFold ln store (total_docs store) (qw.map Prod.fst) ([], [])).2
      (lemmasFold ln store (total_docs store) (qw.map Prod.fst) ([], [])).1).map Prod.fst =
      candidates store (qw.map Prod.fst) := by
    rw [keys_docVectorsLoop, hk1]
    intro k hk
    rw [hk1]
    rw [hk2] at hk
    exact hk
  have hkcl : ((candidates store (qw.map Prod.fst)).map
      (fun d => (d, claimedScore ln store qw d))).map Prod.fst =
      candidates store (qw.map Prod.fst) := by
    rw [List.map_map]
    exact List.map_id _
  refine assoc_ext (hkf.trans hkcl.symm) (by rw [hkf]; exact hnodupc) ?_
  intro k
  rw [lookupA_map_pair]
  rw [lookupA_docVectorsLoop qw _ _ k (by rw [hk2]; exact hnodupc)]
  have hdisj0 : ∀ d2 : String,
      ∀ k2 ∈ ((lookupA (([], []) : QState).2 d2).getD []).map Prod.fst,
        k2 ∉ qw.map Prod.fst := by
    intro d2 k2 hk2m
    simp [lookupA] at hk2m
  rw [lookupA_snd_lemmasFold ln store (qw.map Prod.fst) ([], []) k hnq hrow hdisj0]
  rw [lookupA_fst_lemmasFold ln store (total_docs store) (qw.map Prod.fst) ([], []) k]
  by_cases hmem : ∃ l ∈ qw.map Prod.fst, k ∈ (postingsOf store l).map (fun p => p.location)
  · have hc : k ∈ candidates store (qw.map Prod.fst) := by
      rw [candidates, mem_candAux]
      exact Or.inr hmem
    rw [if_pos hmem, if_pos hmem, if_pos hc]
    simp only [lookupA, Option.getD_none, Option.getD_some, List.nil_append]
    rw [dotLoop_eq]
    rw [claimedScore_eq ln store qw k hnq hrow]
    congr 1
    ring
  · have hc : k ∉ candidates store (qw.map Prod.fst) := by
      rw [candidates, mem_candAux]
      rintro (h1 | h1)
      · cases h1
      · exact hmem h1
    rw [if_neg hmem, if_neg hmem, if_neg hc]
    simp [lookupA]

/-- Claim C4: when query evaluation succeeds, every candidate document's final
score is the sum over the query lemmas it shares with the query of
query_lemma_weight * document_lemma_tf_idf, plus html_weight/10000 once per
(document, query-lemma) pair; no score is divided by either vector's Euclidean
norm, and the result is the first 20 document identifiers after a stable sort
by this total score, descending. -/
theorem claim4_scoring_formula (ln sqrtF : ℚ → ℚ) (stem : String → String)
    (store : List TermRow) (toks : List String) (qw : List (String × ℚ)) (vlen : ℚ)
    (hq : process_query ln sqrtF stem store toks = Except.ok (qw, vlen))
    (hdiv : ∀ l ∈ qw.map Prod.fst, postingsOf store l ≠ [] →
        ln ((total_docs store : ℚ) / ((postingsOf store l).length : ℚ)) ≠ 0)
    (hnodup : ∀ r ∈ store, (r.docs.map (fun p => p.location)).Nodup) :
    calculate_cosine_similarity ln sqrtF stem store toks =
      Except.ok (claimedRanking ln store qw) ∧
    List.Sorted (fun a b : String × ℚ => b.2 ≤ a.2)
      (sortDesc ((candidates store (qw.map Prod.fst)).map
        (fun d => (d, claimedScore ln store qw d)))) := by
  refine ⟨?_, sortDesc_sorted _⟩
  have hkeys : qw.map Prod.fst = (query_tf stem toks).map Prod.fst :=
    queryIdfLoop_ok_keys (process_query_ok_inv hq)
  have hfound : ∀ l2 ∈ qw.map Prod.fst, (find_one store l2).isSome = true := by
    intro l2 hl2
    rw [hkeys, List.mem_map] at hl2
    obtain ⟨e, he, rfl⟩ := hl2
    exact queryIdfLoop_ok_found (process_query_ok_inv hq) e he
  have hqtk : (query_tf stem toks).map Prod.fst =
      (tokenize_query stem toks).map Prod.fst := by
    rw [query_tf, List.map_map]
    rfl
  have hnq : (qw.map Prod.fst).Nodup := by
    rw [hkeys, hqtk]
    exact nodup_keys_tokenize_query stem toks
  have hrow : ∀ l ∈ qw.map Prod.fst,
      ((postingsOf store l).map (fun p => p.location)).Nodup := by
    intro l _
    rcases hfo : find_one store l with _ | row
    · rw [postingsOf, hfo]
      simp
    · rw [postingsOf_eq hfo]
      exact hnodup row (find_one_mem hfo)
  have hloop := lemmasLoop_ok ln store (total_docs store) (qw.map Prod.fst) hfound hdiv
    ([], [])
  simp only [calculate_cosine_similarity, hq, hloop]
  rw [scores_eq_claimedScores ln store qw hnq hrow]
  rfl

/-- Witness for C4: a two-lemma query over a three-document store with
backfilled tf_idf values. -/
theorem claim4_witness :
    calculate_cosine_similarity ln0 sqrt0 stem0 store0 ["fox", "dog"] =
      Except.ok (claimedRanking ln0 store0 [("fox", 1/4), ("dog", 1/4)]) := by
  have h1 : pyLower "fox" = "fox" := by decide
  have h2 : pyIsNumeric "fox" = false := by decide
  have h3 : pyLower "dog" = "dog" := by decide
  have h4 : pyIsNumeric "dog" = false := by decide
  exact (claim4_scoring_formula ln0 sqrt0 stem0 store0 ["fox", "dog"]
    [("fox", 1/4), ("dog", 1/4)] (1/8)
    (by norm_num +decide [process_query, query_tf, tokenize_query, queryTokensLoop,
      bumpCount, queryIdfLoop, find_one, total_docs, allLocations, distinctCount,
      sum_sq, lookupA, store0, ln0, sqrt0, stem0, h1, h2, h3, h4])
    (by norm_num +decide [postingsOf, find_one, total_docs, allLocations, distinctCount,
      lookupA, store0, ln0])
    (by decide)).1
